import Mathlib

/-!
Verification of the multi-block table discovery and extraction engine of the
us-voter-turnout ETL scripts (`etl/normalize_census_a5a.py` and the merger in
`etl/normalize_turnout.py`).

The Python code is shallowly embedded: cells are an inductive type covering
`None`, ints, floats (with NaN/inf), and text; Python floats are modelled as
exact rationals (the decimal strings handled by the scripts are evaluated
exactly, never rounded); each Python loop becomes a structurally recursive
function on a fuel argument equal to the loop's iteration bound, so every
definition evaluates by kernel reduction.

Modelling notes on Python builtins used by the scripts:
* `str.strip` / `float`'s whitespace stripping is modelled over the ASCII
  whitespace characters (space, tab, newline, carriage return, vertical tab,
  form feed); the scripts' data never contains other Unicode spaces.
* `str.lower` is modelled on ASCII letters.
* `str.isdigit` and the digit handling of `int`/`float` are modelled by a
  partial table of Unicode decimal digits (ASCII, Arabic-Indic, fullwidth);
  characters with Unicode `Numeric_Type=Digit` that are not decimal digits
  (for which `int` would raise) are outside the model.
* `float(string)` is modelled by `pyFloatParse`, following CPython's accepted
  grammar: optional sign, `inf`/`infinity`/`nan` (case-insensitive), or a
  decimal mantissa with optional fraction and exponent, with underscores
  allowed strictly between digits.
-/

namespace VoterTurnout

/-- Decimal value of a character, for the decimal digits Python's `int`,
`float` and `str.isdigit` accept.  Partial model of the Unicode `Nd` class:
ASCII `0-9`, Arabic-Indic `٠-٩`, fullwidth `０-９`. -/
def pyCharDigitVal (c : Char) : Option Nat :=
  if 48 ≤ c.toNat ∧ c.toNat ≤ 57 then some (c.toNat - 48)
  else if 0x660 ≤ c.toNat ∧ c.toNat ≤ 0x669 then some (c.toNat - 0x660)
  else if 0xFF10 ≤ c.toNat ∧ c.toNat ≤ 0xFF19 then some (c.toNat - 0xFF10)
  else none

/-- ASCII digit test (used to state spec-side claims about "ASCII digits"). -/
def asciiDigit (c : Char) : Bool := 48 ≤ c.toNat && c.toNat ≤ 57

/-- Whitespace as stripped by Python's `str.strip()` (ASCII part). -/
def pyIsSpace (c : Char) : Bool :=
  c.toNat = 32 || c.toNat = 9 || c.toNat = 10 || c.toNat = 13 ||
  c.toNat = 11 || c.toNat = 12

/-- Python `str.lower` on one character (ASCII part). -/
def pyLowerC (c : Char) : Char :=
  if 65 ≤ c.toNat ∧ c.toNat ≤ 90 then Char.ofNat (c.toNat + 32) else c

/-- Python `str.lower` over a character list. -/
def pyLowerL (cs : List Char) : List Char := cs.map pyLowerC

/-- Python `str.strip()` over a character list. -/
def pyStripL (cs : List Char) : List Char :=
  ((cs.dropWhile pyIsSpace).reverse.dropWhile pyIsSpace).reverse

/-- Python `str.strip()`. -/
def pyStrip (s : String) : String := String.mk (pyStripL s.toList)

/-- Python `str.lower()`. -/
def pyLower (s : String) : String := String.mk (pyLowerL s.toList)

/-- Python `str.startswith`. -/
def pyStartsWith (s pre : String) : Bool := pre.toList.isPrefixOf s.toList

/-- A Python float value: NaN, signed infinity, or a finite value
(modelled as an exact rational). -/
inductive PyFloat where
  | nan : PyFloat
  | inf (neg : Bool) : PyFloat
  | val (q : ℚ) : PyFloat
deriving DecidableEq, Repr

/-- Negation of a Python float (`float('-...')` applies the sign). -/
def PyFloat.neg : PyFloat → PyFloat
  | .nan => .nan
  | .inf b => .inf (!b)
  | .val q => .val (-q)

/-- Accumulating decimal valuation: `digitsValAux a cs` is
`a * 10^|cs| + value cs` when every character of `cs` is a decimal digit,
`none` otherwise.  Models the digit loop of CPython's string-to-number
conversions. -/
def digitsValAux (a : Nat) : List Char → Option Nat
  | [] => some a
  | c :: cs =>
    match pyCharDigitVal c with
    | some d => digitsValAux (a * 10 + d) cs
    | none => none

/-- Python `int` on a nonempty all-digit character list. -/
def digitsNat (cs : List Char) : Option Nat :=
  if cs = [] then none else digitsValAux 0 cs

/-- Split a character list at the first character satisfying `p`; the second
component is `none` when no character matches. -/
def splitAtFirst (p : Char → Bool) : List Char → List Char × Option (List Char)
  | [] => ([], none)
  | c :: cs =>
    if p c then ([], some cs)
    else
      let r := splitAtFirst p cs
      (c :: r.1, r.2)

/-- CPython underscore rule for numeric literals fed to `float`: every
underscore must sit directly between two digits.  `prev` is the character
preceding the current position ( seeded with a non-digit for the start). -/
def underscoreOkAux : Char → List Char → Bool
  | _, [] => true
  | prev, c :: cs =>
    if c = '_' then
      (pyCharDigitVal prev).isSome &&
      (match cs with
       | d :: _ => (pyCharDigitVal d).isSome
       | [] => false) &&
      underscoreOkAux c cs
    else underscoreOkAux c cs

/-- Underscore validity for the whole (sign-stripped) literal. -/
def underscoreOk (cs : List Char) : Bool := underscoreOkAux ' ' cs

/-- Parse the exponent part of a float literal (after `e`/`E`):
optional sign followed by a nonempty digit string. -/
def parseExp (cs : List Char) : Option Int :=
  match cs with
  | '+' :: rest => (digitsNat rest).map fun n => (n : Int)
  | '-' :: rest => (digitsNat rest).map fun n => -(n : Int)
  | _ => (digitsNat cs).map fun n => (n : Int)

/-- Value of a mantissa split at its (first) dot: `d+`, `d+.d*`, or `.d+`. -/
def mantissaOfSplit : List Char × Option (List Char) → Option ℚ
  | (ip, none) => (digitsNat ip).map fun n => (n : ℚ)
  | (ip, some fp) =>
    if fp.any (fun c => c = '.') then none
    else if ip = [] ∧ fp = [] then none
    else
      match digitsValAux 0 ip, digitsValAux 0 fp with
      | some iv, some fv => some ((iv : ℚ) + (fv : ℚ) / (10 : ℚ) ^ fp.length)
      | _, _ => none

/-- Parse the mantissa of a float literal: `d+`, `d+.d*`, or `.d+`. -/
def parseMantissa (cs : List Char) : Option ℚ :=
  mantissaOfSplit (splitAtFirst (fun c => c = '.') cs)

/-- Combine the mantissa with the optional exponent part split at `e`/`E`. -/
def applyExp : List Char × Option (List Char) → Option ℚ
  | (m, none) => parseMantissa m
  | (m, some ex) =>
    match parseMantissa m, parseExp ex with
    | some q, some e => some (q * (10 : ℚ) ^ e)
    | _, _ => none

/-- Parse an unsigned float literal: named constants, or mantissa with
optional exponent, with CPython's underscore rule. -/
def parseUnsigned (cs : List Char) : Option PyFloat :=
  if pyLowerL cs = "inf".toList ∨ pyLowerL cs = "infinity".toList then some (.inf false)
  else if pyLowerL cs = "nan".toList then some .nan
  else if underscoreOk cs then
    (applyExp (splitAtFirst (fun c => c = 'e' ∨ c = 'E')
      (cs.filter fun c => c ≠ '_'))).map .val
  else none

/-- Dispatch on the optional sign of a float literal. -/
def signSplit : List Char → Option PyFloat
  | [] => none
  | '+' :: rest => parseUnsigned rest
  | '-' :: rest => (parseUnsigned rest).map PyFloat.neg
  | cs => parseUnsigned cs

/-- Python `float(s)` on a string: strip whitespace, take an optional sign,
parse the rest; `none` models `ValueError`. -/
def pyFloatParse (s : String) : Option PyFloat :=
  signSplit (pyStripL s.toList)

/-- A raw spreadsheet cell as pandas hands it to the scripts: Python `None`,
an int, a float (possibly the NaN sentinel), or text. -/
inductive Cell where
  | none : Cell
  | int (n : Int) : Cell
  | float (x : PyFloat) : Cell
  | text (s : String) : Cell
deriving DecidableEq, Repr

/-- Python `str()` of a float.  `repr` of a CPython float prints the shortest
decimal that round-trips; for floats with a short exact decimal expansion
(the only finite floats these scripts produce or read back) this is the exact
decimal, which is what this model renders.  Rationals with no finite decimal
expansion use a fallback rendering (never produced by the scripts). -/
def pyFloatRepr (q : ℚ) : String :=
  if q.den = 1 then toString q.num ++ ".0"
  else
    match (List.range 400).find? (fun k => (q * (10 : ℚ) ^ (k + 1)).den = 1) with
    | some k =>
      let d := k + 1
      let n := (q * (10 : ℚ) ^ d).num
      let m := n.natAbs
      let fracDigits := toString (m % 10 ^ d)
      (if n < 0 then "-" else "") ++ toString (m / 10 ^ d) ++ "." ++
        String.mk (List.replicate (d - fracDigits.length) '0') ++ fracDigits
    | Option.none => toString q.num ++ "/" ++ toString q.den

/-- Python `str()` of a float value. -/
def pyFloatStr : PyFloat → String
  | .nan => "nan"
  | .inf b => if b then "-inf" else "inf"
  | .val q => pyFloatRepr q

/-- Python `str()` of a raw cell value. -/
def cellStr : Cell → String
  | .none => "None"
  | .int n => toString n
  | .float x => pyFloatStr x
  | .text s => s

/-- `clean_percentage_like` from `normalize_census_a5a.py`: convert values
like `'63.6%'`, `'63.6'`, `63.6` to a float, or `None`. -/
def clean_percentage_like (value : Cell) : Option PyFloat :=
  match value with
  | .none => Option.none
  | .int n => some (.val (n : ℚ))
  | .float x => if x = .nan then Option.none else some x
  | .text t =>
    let s := pyStrip t
    if s = "" ∨ pyLower s = "nan" then Option.none
    else
      let s2 := pyStrip (String.mk ((s.toList.filter fun c => c ≠ '%').filter fun c => c ≠ ','))
      pyFloatParse s2

/-- Python `str.isdigit` over a character list (within the modelled digit
table; see the header comment). -/
def pyIsDigitStr (cs : List Char) : Bool :=
  !cs.isEmpty && cs.all fun c => (pyCharDigitVal c).isSome

/-- `is_year_str` from `normalize_census_a5a.py`: strip, require exactly four
digit characters, convert with `int`, require the range `[1900, 2100]`. -/
def is_year_str (s : String) : Option Nat :=
  let t := pyStripL s.toList
  if t.length = 4 ∧ pyIsDigitStr t then
    match digitsValAux 0 t with
    | some y => if 1900 ≤ y ∧ y ≤ 2100 then some y else Option.none
    | Option.none => Option.none
  else Option.none

/-! ### The grid and the header block detector -/

/-- A pandas DataFrame as seen by the scripts: a row-major grid of raw cells
with a fixed column count (`df.shape`).  Out-of-range reads default to
`Cell.none`; the embedded loops only read in range. -/
structure Grid where
  data : List (List Cell)
  ncols : Nat
deriving DecidableEq, Repr

/-- Number of rows (`df.shape[0]`). -/
def Grid.nrows (g : Grid) : Nat := g.data.length

/-- `df.iat[i, j]`. -/
def Grid.cell (g : Grid) (i j : Nat) : Cell := (g.data.getD i []).getD j .none

/-- pandas `isna`: `None` and float NaN count as missing. -/
def cellIsNa : Cell → Bool
  | .none => true
  | .float .nan => true
  | _ => false

/-- `df.dropna(how='all')`: drop rows whose every cell is missing. -/
def dropNaRows (g : Grid) : Grid :=
  ⟨g.data.filter fun row =>
    !(List.range g.ncols).all fun j => cellIsNa (row.getD j .none), g.ncols⟩

/-- `df.dropna(axis=1, how='all')`: drop columns whose every cell is
missing. -/
def dropNaCols (g : Grid) : Grid :=
  let kept := (List.range g.ncols).filter fun j =>
    g.data.any fun row => !cellIsNa (row.getD j .none)
  ⟨g.data.map fun row => kept.map fun j => row.getD j .none, kept.length⟩

/-- The entry-point pre-filter of `normalize_a5a`: drop all-NaN rows, then
all-NaN columns. -/
def preprocess (g : Grid) : Grid := dropNaCols (dropNaRows g)

/-- `year_to_cols` of one header block: year → `(total_col, citizen_col)`,
an insertion-ordered association list (a Python dict). -/
abbrev YearMap := List (Nat × Option Nat × Option Nat)

/-- Python dict assignment `d[y] = v` on an insertion-ordered association
list: update in place if the key exists, else append. -/
def dictInsert (m : YearMap) (y : Nat) (v : Option Nat × Option Nat) : YearMap :=
  match m with
  | [] => [(y, v)]
  | e :: rest => if e.1 = y then (y, v) :: rest else e :: dictInsert rest y v

/-- The year tokens of row `i`: pairs `(j, y)` for each column `j ≥ 1` whose
cell text passes `is_year_str` (the detector's `years_in_row`). -/
def yearsInRow (g : Grid) (i : Nat) : List (Nat × Nat) :=
  (List.range' 1 (g.ncols - 1)).filterMap fun j =>
    match is_year_str (pyStrip (cellStr (g.cell i j))) with
    | some y => some (j, y)
    | Option.none => Option.none

/-- The lowered, stripped text of sub-header cell `(subR, j)`, or `''` when
`j` is out of columns (the detector's `sub_j` / `sub_j1`). -/
def subCellLower (g : Grid) (subR j : Nat) : String :=
  if j < g.ncols then pyLower (pyStrip (cellStr (g.cell subR j))) else ""

/-- Resolve the sub-header columns for the year token at column `j`:
examine cells `(subR, j)` and `(subR, j+1)` for `total`/`citizen` labels,
the cell at `j` taking priority (the detector's per-year body). -/
def subheaderCols (g : Grid) (subR j : Nat) : Option Nat × Option Nat :=
  let subJ := subCellLower g subR j
  let subJ1 := subCellLower g subR (j + 1)
  let totalIdx : Option Nat := if pyStartsWith subJ "total" then some j else Option.none
  let citizenIdx : Option Nat := if pyStartsWith subJ "citizen" then some j else Option.none
  let totalIdx := if pyStartsWith subJ1 "total" ∧ totalIdx = Option.none
    then some (j + 1) else totalIdx
  let citizenIdx := if pyStartsWith subJ1 "citizen" ∧ citizenIdx = Option.none
    then some (j + 1) else citizenIdx
  (totalIdx, citizenIdx)

/-- Build `year_map` for anchor row `i` from its year tokens and sub-header
row `subR = i + 1`. -/
def buildYearMap (g : Grid) (subR : Nat) (yrow : List (Nat × Nat)) : YearMap :=
  yrow.foldl (fun ym jy => dictInsert ym jy.2 (subheaderCols g subR jy.1)) []

/-- The scanning loop of `find_header_blocks`.  The loop index `i` strictly
increases, so `fuel = g.nrows` bounds the iteration count; the `fuel = 0`
base case is unreachable from `find_header_blocks`. -/
def findBlocksAux (g : Grid) : Nat → Nat → List (Nat × YearMap)
  | 0, _ => []
  | fuel + 1, i =>
    if i < g.nrows - 1 then
      if 3 ≤ (yearsInRow g i).length then
        if i + 1 < g.nrows then
          if buildYearMap g (i + 1) (yearsInRow g i) = [] then
            findBlocksAux g fuel (i + 1)
          else
            (i, buildYearMap g (i + 1) (yearsInRow g i)) :: findBlocksAux g fuel (i + 2)
        else findBlocksAux g fuel (i + 1)
      else findBlocksAux g fuel (i + 1)
    else []

/-- `find_header_blocks`: all `(header_row_index, year_to_cols)` blocks. -/
def find_header_blocks (g : Grid) : List (Nat × YearMap) :=
  findBlocksAux g g.nrows 0

/-! ### The row extractor -/

/-- One output record: `{'year': ..., 'state': ..., 'turnout': ...}`. -/
structure Record where
  year : Nat
  state : String
  turnout : PyFloat
deriving DecidableEq, Repr

/-- The extractor's `years_here` count for row `r`: cells in columns `1..`
whose text passes `is_year_str`. -/
def yearsHere (g : Grid) (r : Nat) : Nat :=
  (List.range' 1 (g.ncols - 1)).countP fun j =>
    (is_year_str (cellStr (g.cell r j))).isSome

/-- The subject label of row `r`: `str(df.iat[r, 0]).strip()`, or `''` when
the raw cell is Python `None`. -/
def rowLabel (g : Grid) (r : Nat) : String :=
  match g.cell r 0 with
  | .none => ""
  | c => pyStrip (cellStr c)

/-- The records one `year_map` entry contributes for row `r`: prefer the
citizen column, else the total column; skip when no column is available,
out of columns, or the cleaned value is missing. -/
def periodRecords (g : Grid) (r : Nat) (state : String)
    (e : Nat × Option Nat × Option Nat) : List Record :=
  match (match e.2.2 with | some c => some c | Option.none => e.2.1) with
  | Option.none => []
  | some colIdx =>
    if colIdx < g.ncols then
      match clean_percentage_like (g.cell r colIdx) with
      | some turnout => [⟨e.1, state, turnout⟩]
      | Option.none => []
    else []

/-- The row-skip test of `parse_block` (blank separators, captions, the
cleaner's own `'nan'` text, and the aggregate row). -/
def rowSkipped (g : Grid) (r : Nat) : Prop :=
  rowLabel g r = "" ∨ pyStartsWith (pyLower (rowLabel g r)) "table" = true ∨
  pyLower (rowLabel g r) = "nan" ∨ pyLower (rowLabel g r) = "united states"

instance (g : Grid) (r : Nat) : Decidable (rowSkipped g r) := by
  unfold rowSkipped; infer_instance

/-- All records row `r` contributes: none when the row is skipped, else one
pass over `year_map` in insertion order. -/
def rowRecords (g : Grid) (ym : YearMap) (r : Nat) : List Record :=
  if rowLabel g r = "" ∨ pyStartsWith (pyLower (rowLabel g r)) "table" = true ∨
      pyLower (rowLabel g r) = "nan" then []
  else if pyLower (rowLabel g r) = "united states" then []
  else ym.flatMap (periodRecords g r (rowLabel g r))

/-- The row loop of `parse_block`, starting at row `r`: stop at the end of
the grid or at a row with at least three year tokens (the defensive boundary
check), otherwise take the row's records and continue.  `r` strictly
increases, so `fuel = g.nrows` bounds the iteration count. -/
def parseBlockAux (g : Grid) (ym : YearMap) : Nat → Nat → List Record
  | 0, _ => []
  | fuel + 1, r =>
    if r < g.nrows then
      if 3 ≤ yearsHere g r then []
      else rowRecords g ym r ++ parseBlockAux g ym fuel (r + 1)
    else []

/-- `parse_block`: data rows start two rows after the header row. -/
def parse_block (g : Grid) (header_row : Nat) (ym : YearMap) : List Record :=
  parseBlockAux g ym g.nrows (header_row + 2)

/-! ### Merging and sorting -/

/-- Python string comparison (`a <= b` on `str`): lexicographic over the
code points. -/
def pyStrLeb : List Char → List Char → Bool
  | [], _ => true
  | _ :: _, [] => false
  | a :: as, b :: bs =>
    if a.toNat < b.toNat then true
    else if a.toNat = b.toNat then pyStrLeb as bs
    else false

/-- The sort key order of `all_records.sort(key=lambda r: (r['year'],
r['state']))`: year ascending, then state ascending (Python compares
strings lexicographically by code point). -/
def keyLE (a b : Record) : Prop :=
  a.year < b.year ∨ (a.year = b.year ∧ pyStrLeb a.state.toList b.state.toList = true)

instance : DecidableRel keyLE := fun a b => by unfold keyLE; infer_instance

/-- Python's `list.sort` is a stable sort by the key; any stable sort agrees
with it extensionally, so it is modelled by insertion sort (whose stability
is proved below). -/
def sortRecords (l : List Record) : List Record := List.insertionSort keyLE l

/-- The concatenation of every detected block's records, in block order
(the `all_records` accumulation of `normalize_a5a`). -/
def allRecords (g : Grid) : List Record :=
  (find_header_blocks (preprocess g)).flatMap fun b =>
    parse_block (preprocess g) b.1 b.2

/-- `normalize_a5a` on an already-loaded grid: pre-filter, detect blocks
(raising `ValueError` when none are found), extract every block, sort. -/
def normalize_a5a (g : Grid) : Except String (List Record) :=
  if find_header_blocks (preprocess g) = [] then
    Except.error "Could not detect any header blocks in a5a.xlsx"
  else Except.ok (sortRecords (allRecords g))

/-- The merge step of `normalize_turnout.main`: concatenate the record lists
of all processed input files, then sort with the same `(year, state)` key. -/
def mergeFiles (parts : List (List Record)) : List Record :=
  sortRecords parts.flatten

/-! ### Spec-side definitions (stated from the spec's words, for comparison)
and derived notions used by the theorems -/

/-- Spec-side decimal valuation of a digit string (most significant first). -/
def specDecVal (cs : List Char) : Nat :=
  Nat.ofDigits 10 ((cs.map fun c => (pyCharDigitVal c).getD 0).reverse)

/-- Spec-side cleaning of claim C3 as stated: trim, drop one trailing
percent sign, drop thousands-separator characters. -/
def specStripTrailingPercent (s : String) : String :=
  let t := pyStripL s.toList
  let t1 := if t.getLast? = some '%' then t.dropLast else t
  String.mk (t1.filter fun c => c ≠ ',')

/-- The first row at or after `r` that passes the extractor's boundary test
(at least three year tokens), or the end of the grid.  `fuel = g.nrows`
suffices because the search stops at `g.nrows` at the latest. -/
def stopRowAux (g : Grid) : Nat → Nat → Nat
  | 0, r => r
  | fuel + 1, r =>
    if r < g.nrows then
      if 3 ≤ yearsHere g r then r else stopRowAux g fuel (r + 1)
    else r

/-- The extractor's stopping row for a scan starting at `r`. -/
def stopRow (g : Grid) (r : Nat) : Nat := stopRowAux g g.nrows r

/-- The anchor rows of all detected blocks. -/
def anchors (g : Grid) : List Nat := (find_header_blocks g).map Prod.fst

/-- The exclusive upper end of block `k`'s data region: the next block's
anchor row, or the end of the grid for the last block. -/
def regionEnd (g : Grid) (k : Nat) : Nat :=
  if h : k + 1 < (anchors g).length then (anchors g).get ⟨k + 1, h⟩ else g.nrows

/-- Row `r` lies in the data region of block `k`. -/
def inRegion (g : Grid) (k : Nat) (hk : k < (anchors g).length) (r : Nat) : Prop :=
  (anchors g).get ⟨k, hk⟩ + 2 ≤ r ∧ r < regionEnd g k

instance (g : Grid) (k : Nat) (hk : k < (anchors g).length) (r : Nat) :
    Decidable (inRegion g k hk r) := by
  unfold inRegion; infer_instance

/-! ### Sample data used by the witnesses -/

/-- One block: anchor row of three years, `Total` sub-headers, one data
row. -/
def sampleGrid1 : Grid :=
  ⟨[[.text "", .text "2020", .text "2016", .text "2012"],
    [.text "", .text "Total", .text "Total", .text "Total"],
    [.text "Alabama", .text "63.6%", .text "59.1", .text "55"]], 4⟩

/-- Like `sampleGrid1` but with the aggregate `United States` data row. -/
def sampleGrid2 : Grid :=
  ⟨[[.text "", .text "2020", .text "2016", .text "2012"],
    [.text "", .text "Total", .text "Total", .text "Total"],
    [.text "United States", .text "70.0%", .text "65.0", .text "60"]], 4⟩

/-- Two stacked blocks separated by one blank text row (spec scenario C). -/
def sampleGrid3 : Grid :=
  ⟨[[.text "", .int 2020, .int 2016, .int 2012],
    [.text "", .text "Total", .text "Total", .text "Total"],
    [.text "Alabama", .int 1, .int 2, .int 3],
    [.text "", .text "", .text "", .text ""],
    [.text "", .int 2008, .int 2004, .int 2000],
    [.text "", .text "Total", .text "Total", .text "Total"],
    [.text "Georgia", .int 4, .int 5, .int 6]], 4⟩

/-- A block whose 2020 column pair carries both a `Total` and a
`Citizen, VEP` sub-header (spec scenario D). -/
def sampleGrid4 : Grid :=
  ⟨[[.text "", .int 2020, .text "", .int 2016, .text "", .int 2012, .text ""],
    [.text "", .text "Total", .text "Citizen, VEP", .text "Total", .text "Citizen",
      .text "Total", .text "Citizen"],
    [.text "Alabama", .int 50, .text "63.6", .int 1, .int 2, .int 3, .int 4]], 7⟩

/-- The year map `find_header_blocks` produces for `sampleGrid3`'s first
block. -/
def sampleYearMap3 : YearMap :=
  [(2020, some 1, Option.none), (2016, some 2, Option.none), (2012, some 3, Option.none)]

/-- The year map `find_header_blocks` produces for `sampleGrid4`'s block. -/
def sampleYearMap4 : YearMap :=
  [(2020, some 1, some 2), (2016, some 3, some 4), (2012, some 5, some 6)]

/-- The sorted records `normalize_a5a` produces for `sampleGrid1`. -/
def sampleRecords1 : List Record :=
  [⟨2012, "Alabama", .val 55⟩, ⟨2016, "Alabama", .val (591 / 10 : ℚ)⟩,
   ⟨2020, "Alabama", .val (318 / 5 : ℚ)⟩]

/-! ### Character and string lemmas -/

theorem specDecVal_nil : specDecVal [] = 0 := rfl

theorem specDecVal_cons (c : Char) (cs : List Char) :
    specDecVal (c :: cs) = (pyCharDigitVal c).getD 0 * 10 ^ cs.length + specDecVal cs := by
  simp only [specDecVal, List.map_cons, List.reverse_cons, Nat.ofDigits_append,
    Nat.ofDigits_singleton, List.length_reverse, List.length_map]
  ring

theorem digitsValAux_eq_of_digits (cs : List Char) :
    ∀ a : Nat, (∀ c ∈ cs, (pyCharDigitVal c).isSome) →
      digitsValAux a cs = some (a * 10 ^ cs.length + specDecVal cs) := by
  induction cs with
  | nil => intro a _; simp [digitsValAux, specDecVal_nil]
  | cons c cs ih =>
    intro a h
    have hc : (pyCharDigitVal c).isSome := h c (by simp)
    obtain ⟨d, hd⟩ := Option.isSome_iff_exists.mp hc
    have hrest : ∀ x ∈ cs, (pyCharDigitVal x).isSome := fun x hx => h x (by simp [hx])
    simp only [digitsValAux, hd]
    rw [ih (a * 10 + d) hrest, specDecVal_cons, hd]
    congr 1
    simp only [List.length_cons, Option.getD_some]
    ring

theorem digit_toNat_lower {c : Char} (h : 48 ≤ c.toNat ∧ c.toNat ≤ 57) :
    pyLowerC c = c := by
  unfold pyLowerC
  rw [if_neg]; omega

theorem dropWhile_append_of_all {p : Char → Bool} {l1 l2 : List Char}
    (h : ∀ c ∈ l1, p c = true) :
    (l1 ++ l2).dropWhile p = l2.dropWhile p := by
  induction l1 with
  | nil => simp
  | cons c cs ih =>
    simp only [List.cons_append, List.dropWhile_cons, h c (by simp)]
    exact ih fun x hx => h x (by simp [hx])

theorem dropWhile_of_all_neg {p : Char → Bool} {l : List Char}
    (h : ∀ c ∈ l, p c = false) : l.dropWhile p = l := by
  cases l with
  | nil => rfl
  | cons c cs => simp [List.dropWhile_cons, h c (by simp)]

theorem dropWhile_of_all_pos {p : Char → Bool} {l : List Char}
    (h : ∀ c ∈ l, p c = true) : l.dropWhile p = [] := by
  induction l with
  | nil => rfl
  | cons c cs ih =>
    simp only [List.dropWhile_cons, h c (by simp), if_true]
    exact ih fun x hx => h x (by simp [hx])

/-- Stripping a string whose body contains no whitespace removes exactly the
whitespace margins. -/
theorem pyStripL_sandwich {ws1 core ws2 : List Char}
    (h1 : ∀ c ∈ ws1, pyIsSpace c = true) (h2 : ∀ c ∈ ws2, pyIsSpace c = true)
    (hc : ∀ c ∈ core, pyIsSpace c = false) :
    pyStripL (ws1 ++ core ++ ws2) = core := by
  cases core with
  | nil =>
    unfold pyStripL
    have hdrop : (ws1 ++ [] ++ ws2).dropWhile pyIsSpace = [] := by
      rw [List.append_nil, dropWhile_append_of_all h1, dropWhile_of_all_pos h2]
    rw [hdrop]; rfl
  | cons c0 core0 =>
    unfold pyStripL
    have hstep : ((c0 :: core0) ++ ws2).dropWhile pyIsSpace = (c0 :: core0) ++ ws2 := by
      simp [List.dropWhile_cons, hc c0 (by simp)]
    rw [List.append_assoc, dropWhile_append_of_all h1, hstep, List.reverse_append,
      dropWhile_append_of_all (fun c hcm => h2 c (List.mem_reverse.mp hcm)),
      dropWhile_of_all_neg (fun c hcm => hc c (List.mem_reverse.mp hcm)),
      List.reverse_reverse]

theorem pyStripL_of_no_space {l : List Char}
    (h : ∀ c ∈ l, pyIsSpace c = false) : pyStripL l = l := by
  have h2 := @pyStripL_sandwich [] l [] (by simp) (by simp) h
  simpa using h2

theorem asciiDigit_iff {c : Char} : asciiDigit c = true ↔ 48 ≤ c.toNat ∧ c.toNat ≤ 57 := by
  simp [asciiDigit, Bool.and_eq_true, decide_eq_true_eq]

theorem pyCharDigitVal_isSome_of_ascii {c : Char} (h : asciiDigit c = true) :
    (pyCharDigitVal c).isSome := by
  rw [asciiDigit_iff] at h
  unfold pyCharDigitVal
  rw [if_pos h]
  rfl

theorem pyIsSpace_eq_false_of_digit {c : Char} (h : asciiDigit c = true) :
    pyIsSpace c = false := by
  rw [asciiDigit_iff] at h
  simp only [pyIsSpace, Bool.or_eq_false_iff, decide_eq_false_iff_not]
  omega

theorem digit_ne_of_toNat {c : Char} (h : asciiDigit c = true) {d : Char}
    (hd : 48 ≤ d.toNat → 57 < d.toNat) : c ≠ d := by
  intro heq
  rw [asciiDigit_iff] at h
  subst heq
  omega

theorem pyLowerC_of_digit {c : Char} (h : asciiDigit c = true) : pyLowerC c = c := by
  rw [asciiDigit_iff] at h
  exact digit_toNat_lower h

theorem pyLowerL_cons (c : Char) (l : List Char) :
    pyLowerL (c :: l) = pyLowerC c :: pyLowerL l := rfl

theorem splitAtFirst_of_none {p : Char → Bool} {l : List Char}
    (h : ∀ c ∈ l, p c = false) : splitAtFirst p l = (l, Option.none) := by
  induction l with
  | nil => rfl
  | cons c cs ih =>
    simp only [splitAtFirst, h c (by simp), Bool.false_eq_true, if_false]
    rw [ih fun x hx => h x (by simp [hx])]

theorem splitAtFirst_append {p : Char → Bool} {l1 l2 : List Char} {d : Char}
    (h : ∀ c ∈ l1, p c = false) (hd : p d = true) :
    splitAtFirst p (l1 ++ d :: l2) = (l1, some l2) := by
  induction l1 with
  | nil => simp [splitAtFirst, hd]
  | cons c cs ih =>
    simp only [List.cons_append, splitAtFirst, h c (by simp), Bool.false_eq_true, if_false]
    rw [List.append_eq, ih fun x hx => h x (by simp [hx])]

theorem underscoreOkAux_of_not_mem {l : List Char} (h : '_' ∉ l) :
    ∀ prev, underscoreOkAux prev l = true := by
  induction l with
  | nil => intro prev; rfl
  | cons c cs ih =>
    intro prev
    have hc : c ≠ '_' := fun heq => h (heq ▸ List.mem_cons_self c cs)
    simp only [underscoreOkAux, if_neg hc]
    exact ih (fun hm => h (List.mem_cons_of_mem c hm)) c

theorem underscoreOk_of_not_mem {l : List Char} (h : '_' ∉ l) :
    underscoreOk l = true :=
  underscoreOkAux_of_not_mem h ' '

theorem digitsNat_of_digits {ds : List Char} (hne : ds ≠ [])
    (h : ∀ c ∈ ds, asciiDigit c = true) : digitsNat ds = some (specDecVal ds) := by
  unfold digitsNat
  rw [if_neg hne,
    digitsValAux_eq_of_digits ds 0 fun c hc => pyCharDigitVal_isSome_of_ascii (h c hc)]
  simp

theorem digit_ne_dot {c : Char} (h : asciiDigit c = true) : c ≠ '.' :=
  digit_ne_of_toNat h (by decide)

/-- `signSplit` on a list that starts with neither sign character. -/
theorem signSplit_default {d : Char} {rest : List Char} (h1 : d ≠ '+') (h2 : d ≠ '-') :
    signSplit (d :: rest) = parseUnsigned (d :: rest) := by
  unfold signSplit
  split
  · rename_i heq; cases heq
  · rename_i heq
    exact absurd (List.cons_eq_cons.mp heq).1 h1
  · rename_i heq
    exact absurd (List.cons_eq_cons.mp heq).1 h2
  · rfl

theorem parseMantissa_int {ds : List Char} (hne : ds ≠ [])
    (h : ∀ c ∈ ds, asciiDigit c = true) :
    parseMantissa ds = some ((specDecVal ds : ℚ)) := by
  unfold parseMantissa
  have hnodot : ∀ c ∈ ds, (decide (c = '.')) = false := fun c hc => by
    simp only [decide_eq_false_iff_not]
    exact digit_ne_dot (h c hc)
  rw [splitAtFirst_of_none hnodot]
  simp [mantissaOfSplit, digitsNat_of_digits hne h]

theorem parseMantissa_frac {ds fd : List Char} (hne : ds ≠ [])
    (h : ∀ c ∈ ds, asciiDigit c = true) (hf : ∀ c ∈ fd, asciiDigit c = true) :
    parseMantissa (ds ++ '.' :: fd) =
      some ((specDecVal ds : ℚ) + (specDecVal fd : ℚ) / (10 : ℚ) ^ fd.length) := by
  unfold parseMantissa
  have hnodot : ∀ c ∈ ds, (decide (c = '.')) = false := fun c hc => by
    simp only [decide_eq_false_iff_not]
    exact digit_ne_dot (h c hc)
  rw [splitAtFirst_append hnodot (by decide)]
  have hfpdot : (fd.any fun c => decide (c = '.')) = false := by
    simp only [List.any_eq_false, decide_eq_true_eq]
    exact fun c hc => digit_ne_dot (hf c hc)
  simp only [mantissaOfSplit, hfpdot, Bool.false_eq_true, if_false,
    if_neg (fun hand : ds = [] ∧ fd = [] => hne hand.1),
    digitsValAux_eq_of_digits ds 0 fun c hc => pyCharDigitVal_isSome_of_ascii (h c hc),
    digitsValAux_eq_of_digits fd 0 fun c hc => pyCharDigitVal_isSome_of_ascii (hf c hc)]
  norm_num

/-- For a literal made of digits and at most one dot (head digit), the
unsigned parser returns the decimal value. -/
theorem parseUnsigned_decimal {ds fracd : List Char} (hne : ds ≠ [])
    (hds : ∀ c ∈ ds, asciiDigit c = true)
    (hfr : fracd = [] ∨ ∃ fd, fracd = '.' :: fd ∧ ∀ c ∈ fd, asciiDigit c = true) :
    parseUnsigned (ds ++ fracd) =
      some (.val ((specDecVal ds : ℚ) +
        (specDecVal fracd.tail : ℚ) / (10 : ℚ) ^ fracd.tail.length)) := by
  obtain ⟨d0, ds0, rfl⟩ : ∃ d0 ds0, ds = d0 :: ds0 := by
    cases ds with
    | nil => exact absurd rfl hne
    | cons a b => exact ⟨a, b, rfl⟩
  have hd0 : asciiDigit d0 = true := hds d0 (by simp)
  have hlow : pyLowerL ((d0 :: ds0) ++ fracd) = d0 :: pyLowerL (ds0 ++ fracd) := by
    rw [List.cons_append, pyLowerL_cons, pyLowerC_of_digit hd0]
  have hd0n : 48 ≤ d0.toNat ∧ d0.toNat ≤ 57 := asciiDigit_iff.mp hd0
  have hfrd : ∀ c ∈ fracd, asciiDigit c = true ∨ c = '.' := by
    rcases hfr with rfl | ⟨fd, rfl, hfd⟩
    · intro c hc; cases hc
    · intro c hc
      rcases List.mem_cons.mp hc with rfl | hc2
      · exact Or.inr rfl
      · exact Or.inl (hfd c hc2)
  have hall : ∀ c ∈ (d0 :: ds0) ++ fracd, asciiDigit c = true ∨ c = '.' := by
    intro c hc
    rcases List.mem_append.mp hc with hc1 | hc2
    · exact Or.inl (hds c hc1)
    · exact hfrd c hc2
  have hinf : ¬(pyLowerL ((d0 :: ds0) ++ fracd) = "inf".toList ∨
      pyLowerL ((d0 :: ds0) ++ fracd) = "infinity".toList) := by
    rintro (heq | heq) <;> rw [hlow] at heq <;>
      · have hdi : d0 = 'i' := (List.cons_eq_cons.mp heq).1
        rw [hdi] at hd0n
        revert hd0n; decide
  have hnan : ¬(pyLowerL ((d0 :: ds0) ++ fracd) = "nan".toList) := by
    intro heq
    rw [hlow] at heq
    have hdn : d0 = 'n' := (List.cons_eq_cons.mp heq).1
    rw [hdn] at hd0n
    revert hd0n; decide
  have hund : underscoreOk ((d0 :: ds0) ++ fracd) = true := by
    refine underscoreOk_of_not_mem fun hm => ?_
    rcases hall '_' hm with hd | hdot
    · rw [asciiDigit_iff] at hd
      revert hd; decide
    · cases hdot
  have hfilt : ((d0 :: ds0) ++ fracd).filter (fun c => c ≠ '_') = (d0 :: ds0) ++ fracd := by
    rw [List.filter_eq_self]
    intro c hc
    simp only [ne_eq, decide_not, Bool.not_eq_eq_eq_not, Bool.not_true,
      decide_eq_false_iff_not]
    rcases hall c hc with hd | rfl
    · exact digit_ne_of_toNat hd (by decide)
    · decide
  have hnoe : ∀ c ∈ (d0 :: ds0) ++ fracd, (decide (c = 'e' ∨ c = 'E')) = false := by
    intro c hc
    simp only [decide_eq_false_iff_not]
    rcases hall c hc with hd | rfl
    · rw [asciiDigit_iff] at hd
      rintro (rfl | rfl) <;> revert hd <;> decide
    · rintro (h1 | h1) <;> cases h1
  unfold parseUnsigned
  rw [if_neg hinf, if_neg hnan, if_pos hund, hfilt, splitAtFirst_of_none hnoe]
  rcases hfr with rfl | ⟨fd, rfl, hfd⟩
  · rw [List.append_nil]
    simp only [applyExp, parseMantissa_int hne hds, Option.map_some]
    norm_num [specDecVal_nil]
  · simp only [applyExp, parseMantissa_frac (by simp) hds hfd, Option.map_some]
    rfl

/-- `float()` on a digits-and-dot literal (no sign), via the full parser. -/
theorem pyFloatParse_decimal {ds fracd : List Char} (hne : ds ≠ [])
    (hds : ∀ c ∈ ds, asciiDigit c = true)
    (hfr : fracd = [] ∨ ∃ fd, fracd = '.' :: fd ∧ ∀ c ∈ fd, asciiDigit c = true) :
    pyFloatParse (String.mk (ds ++ fracd)) =
      some (.val ((specDecVal ds : ℚ) +
        (specDecVal fracd.tail : ℚ) / (10 : ℚ) ^ fracd.tail.length)) := by
  obtain ⟨d0, ds0, rfl⟩ : ∃ d0 ds0, ds = d0 :: ds0 := by
    cases ds with
    | nil => exact absurd rfl hne
    | cons a b => exact ⟨a, b, rfl⟩
  have hd0 : asciiDigit d0 = true := hds d0 (by simp)
  have hd0n : 48 ≤ d0.toNat ∧ d0.toNat ≤ 57 := asciiDigit_iff.mp hd0
  have hnospace : ∀ c ∈ (d0 :: ds0) ++ fracd, pyIsSpace c = false := by
    intro c hc
    rcases List.mem_append.mp hc with hc1 | hc2
    · exact pyIsSpace_eq_false_of_digit (hds c hc1)
    · rcases hfr with rfl | ⟨fd, rfl, hfd⟩
      · cases hc2
      · rcases List.mem_cons.mp hc2 with rfl | hc3
        · decide
        · exact pyIsSpace_eq_false_of_digit (hfd c hc3)
  have hstrip : pyStripL (String.mk ((d0 :: ds0) ++ fracd)).toList =
      (d0 :: ds0) ++ fracd := pyStripL_of_no_space hnospace
  have hplus : d0 ≠ '+' := digit_ne_of_toNat hd0 (by decide)
  have hminus : d0 ≠ '-' := digit_ne_of_toNat hd0 (by decide)
  unfold pyFloatParse
  rw [hstrip, List.cons_append, signSplit_default hplus hminus, ← List.cons_append]
  exact parseUnsigned_decimal hne hds hfr

/-! ### Claim C3: the value cleaner -/

theorem string_mk_toList (l : List Char) : (String.mk l).toList = l := rfl

theorem pyIsSpace_comma : pyIsSpace ',' = false := by decide

theorem pyIsSpace_dot : pyIsSpace '.' = false := by decide

theorem pyIsSpace_pct : pyIsSpace '%' = false := by decide

/-- The cleaner's text path: with the stripped text equal to `core`, the
result is the float parse of the separator-stripped text, provided `core` is
nonempty and does not spell `nan`. -/
theorem clean_text_eval {t : String} {core : List Char}
    (hstrip : pyStripL t.toList = core) (hne : core ≠ [])
    (hnan : pyLowerL core ≠ "nan".toList) :
    clean_percentage_like (Cell.text t) =
      pyFloatParse (pyStrip (String.mk ((core.filter fun c => c ≠ '%').filter
        fun c => c ≠ ','))) := by
  show (let s := pyStrip t
    if s = "" ∨ pyLower s = "nan" then Option.none
    else
      let s2 := pyStrip (String.mk ((s.toList.filter fun c => c ≠ '%').filter
        fun c => c ≠ ','))
      pyFloatParse s2) = _
  have hs : pyStrip t = String.mk core := by
    unfold pyStrip
    rw [hstrip]
  rw [hs]
  rw [if_neg]
  · rfl
  · rintro (hemp | hnan2)
    · exact hne (congrArg String.toList hemp)
    · exact hnan (congrArg String.toList hnan2)

/-- Claim C3 (amended): the Value Cleaner is total and returns an optional
float.  It returns absent for `None`, the float NaN sentinel, blank or
whitespace-only text, case-insensitive `nan` after trimming, and any text
that fails numeric parse after removing every percent sign and every
thousands-separator character (wherever they occur, not only trailing).
Every text of the shape `ws* digits[,digits]* [. digits+] [%] ws*` cleans to
the denoted decimal value, and numeric inputs pass through as floats. -/
theorem clean_percentage_like_spec :
    (clean_percentage_like Cell.none = Option.none)
    ∧ (clean_percentage_like (Cell.float PyFloat.nan) = Option.none)
    ∧ (∀ n : Int, clean_percentage_like (Cell.int n) = some (PyFloat.val (n : ℚ)))
    ∧ (∀ x : PyFloat, x ≠ PyFloat.nan → clean_percentage_like (Cell.float x) = some x)
    ∧ (∀ s : String, pyStrip s = "" → clean_percentage_like (Cell.text s) = Option.none)
    ∧ (∀ s : String, pyLower (pyStrip s) = "nan" →
        clean_percentage_like (Cell.text s) = Option.none)
    ∧ (∀ s : String,
        pyFloatParse (pyStrip (String.mk (((pyStrip s).toList.filter fun c => c ≠ '%').filter
          fun c => c ≠ ','))) = Option.none →
        clean_percentage_like (Cell.text s) = Option.none)
    ∧ (∀ ws1 ws2 ic fracd pct : List Char,
        (∀ c ∈ ws1, pyIsSpace c = true) → (∀ c ∈ ws2, pyIsSpace c = true) →
        (∀ c ∈ ic, asciiDigit c = true ∨ c = ',') →
        (∃ c ∈ ic, asciiDigit c = true) →
        (fracd = [] ∨ ∃ fd, fracd = '.' :: fd ∧ fd ≠ [] ∧ ∀ c ∈ fd, asciiDigit c = true) →
        (pct = [] ∨ pct = ['%']) →
        clean_percentage_like (Cell.text (String.mk (ws1 ++ (ic ++ fracd ++ pct) ++ ws2))) =
          some (PyFloat.val ((specDecVal (ic.filter fun c => c ≠ ',') : ℚ) +
            (specDecVal fracd.tail : ℚ) / (10 : ℚ) ^ fracd.tail.length))) := by
  refine ⟨rfl, rfl, fun n => rfl, ?_, ?_, ?_, ?_, ?_⟩
  · intro x hx
    show (if x = PyFloat.nan then Option.none else some x) = some x
    rw [if_neg hx]
  · intro s hs
    show (let s1 := pyStrip s
      if s1 = "" ∨ pyLower s1 = "nan" then Option.none else _) = Option.none
    rw [if_pos (Or.inl hs)]
  · intro s hs
    show (let s1 := pyStrip s
      if s1 = "" ∨ pyLower s1 = "nan" then Option.none else _) = Option.none
    rw [if_pos (Or.inr hs)]
  · intro s hp
    show (let s1 := pyStrip s
      if s1 = "" ∨ pyLower s1 = "nan" then Option.none
      else
        let s2 := pyStrip (String.mk ((s1.toList.filter fun c => c ≠ '%').filter
          fun c => c ≠ ','))
        pyFloatParse s2) = Option.none
    by_cases hc : pyStrip s = "" ∨ pyLower (pyStrip s) = "nan"
    · rw [if_pos hc]
    · rw [if_neg hc]
      exact hp
  · intro ws1 ws2 ic fracd pct h1 h2 hic hex hfr hpct
    obtain ⟨dd, hddm, hdd⟩ := hex
    -- every character of the stripped core
    have hcore_chars : ∀ c ∈ ic ++ fracd ++ pct,
        asciiDigit c = true ∨ c = ',' ∨ c = '.' ∨ c = '%' := by
      intro c hc
      rcases List.mem_append.mp hc with hc1 | hc2
      · rcases List.mem_append.mp hc1 with hc3 | hc4
        · rcases hic c hc3 with hd | rfl
          · exact Or.inl hd
          · exact Or.inr (Or.inl rfl)
        · rcases hfr with rfl | ⟨fd, rfl, _, hfd⟩
          · cases hc4
          · rcases List.mem_cons.mp hc4 with rfl | hc5
            · exact Or.inr (Or.inr (Or.inl rfl))
            · exact Or.inl (hfd c hc5)
      · rcases hpct with rfl | rfl
        · cases hc2
        · rcases List.mem_cons.mp hc2 with rfl | hc5
          · exact Or.inr (Or.inr (Or.inr rfl))
          · cases hc5
    have hcore_nospace : ∀ c ∈ ic ++ fracd ++ pct, pyIsSpace c = false := by
      intro c hc
      rcases hcore_chars c hc with hd | rfl | rfl | rfl
      · exact pyIsSpace_eq_false_of_digit hd
      · exact pyIsSpace_comma
      · exact pyIsSpace_dot
      · exact pyIsSpace_pct
    have hne : ic ++ fracd ++ pct ≠ [] := by
      intro h0
      have : dd ∈ ic ++ fracd ++ pct :=
        List.mem_append.mpr (Or.inl (List.mem_append.mpr (Or.inl hddm)))
      rw [h0] at this
      cases this
    have hstrip : pyStripL (String.mk (ws1 ++ (ic ++ fracd ++ pct) ++ ws2)).toList =
        ic ++ fracd ++ pct := by
      rw [string_mk_toList]
      exact pyStripL_sandwich h1 h2 hcore_nospace
    have hnan : pyLowerL (ic ++ fracd ++ pct) ≠ "nan".toList := by
      intro heq
      have hdd2 : dd ∈ ic ++ fracd ++ pct :=
        List.mem_append.mpr (Or.inl (List.mem_append.mpr (Or.inl hddm)))
      have : pyLowerC dd ∈ pyLowerL (ic ++ fracd ++ pct) :=
        List.mem_map_of_mem pyLowerC hdd2
      rw [pyLowerC_of_digit hdd, heq,
        show "nan".toList = ['n', 'a', 'n'] from rfl] at this
      have hb := asciiDigit_iff.mp hdd
      simp only [List.mem_cons, List.not_mem_nil, or_false] at this
      rcases this with h3 | h3 | h3 <;> (rw [h3] at hb; revert hb; decide)
    rw [clean_text_eval hstrip hne hnan]
    -- compute the filtered text
    have hicf : ic.filter (fun c => c ≠ '%') = ic := by
      rw [List.filter_eq_self]
      intro c hc
      simp only [ne_eq, decide_not, Bool.not_eq_eq_eq_not, Bool.not_true,
        decide_eq_false_iff_not]
      rcases hic c hc with hd | rfl
      · exact digit_ne_of_toNat hd (by decide)
      · decide
    have hfrf : fracd.filter (fun c => c ≠ '%') = fracd := by
      rw [List.filter_eq_self]
      intro c hc
      simp only [ne_eq, decide_not, Bool.not_eq_eq_eq_not, Bool.not_true,
        decide_eq_false_iff_not]
      rcases hfr with rfl | ⟨fd, rfl, _, hfd⟩
      · cases hc
      · rcases List.mem_cons.mp hc with rfl | hc5
        · decide
        · exact digit_ne_of_toNat (hfd c hc5) (by decide)
    have hpctf : pct.filter (fun c => c ≠ '%') = [] := by
      rcases hpct with rfl | rfl
      · rfl
      · decide
    have hfrf2 : fracd.filter (fun c => c ≠ ',') = fracd := by
      rw [List.filter_eq_self]
      intro c hc
      simp only [ne_eq, decide_not, Bool.not_eq_eq_eq_not, Bool.not_true,
        decide_eq_false_iff_not]
      rcases hfr with rfl | ⟨fd, rfl, _, hfd⟩
      · cases hc
      · rcases List.mem_cons.mp hc with rfl | hc5
        · decide
        · exact digit_ne_of_toNat (hfd c hc5) (by decide)
    have hfilters : ((ic ++ fracd ++ pct).filter (fun c => c ≠ '%')).filter
        (fun c => c ≠ ',') = (ic.filter fun c => c ≠ ',') ++ fracd := by
      simp only [List.filter_append, hicf, hfrf, hpctf, hfrf2, List.append_nil]
    rw [hfilters]
    -- the separator-free text has no whitespace, so the inner strip is a no-op
    have hdsI : ∀ c ∈ ic.filter (fun c => c ≠ ','), asciiDigit c = true := by
      intro c hc
      have hc2 := List.mem_filter.mp hc
      rcases hic c hc2.1 with hd | rfl
      · exact hd
      · simp at hc2
    have hdsIne : ic.filter (fun c => c ≠ ',') ≠ [] := by
      intro h0
      have hddf : dd ∈ ic.filter (fun c => c ≠ ',') := by
        rw [List.mem_filter]
        refine ⟨hddm, ?_⟩
        simp only [ne_eq, decide_not, Bool.not_eq_eq_eq_not, Bool.not_true,
          decide_eq_false_iff_not]
        exact digit_ne_of_toNat hdd (by decide)
      rw [h0] at hddf
      cases hddf
    have hinnerstrip : pyStrip (String.mk ((ic.filter fun c => c ≠ ',') ++ fracd)) =
        String.mk ((ic.filter fun c => c ≠ ',') ++ fracd) := by
      unfold pyStrip
      rw [string_mk_toList, pyStripL_of_no_space]
      intro c hc
      rcases List.mem_append.mp hc with hc1 | hc2
      · exact pyIsSpace_eq_false_of_digit (hdsI c hc1)
      · rcases hfr with rfl | ⟨fd, rfl, _, hfd⟩
        · cases hc2
        · rcases List.mem_cons.mp hc2 with rfl | hc5
          · exact pyIsSpace_dot
          · exact pyIsSpace_eq_false_of_digit (hfd c hc5)
    rw [hinnerstrip]
    exact pyFloatParse_decimal hdsIne hdsI
      (hfr.imp id fun ⟨fd, hfd1, _, hfd3⟩ => ⟨fd, hfd1, hfd3⟩)

/-- Counterexample to claim C3 as stated: `"6%3"` fails numeric parse after
stripping a trailing percent sign (there is none) and thousands separators,
so the claim maps it to absent; the code removes every percent sign wherever
it occurs and returns 63.0. -/
theorem clean_percentage_like_trailing_cex :
    clean_percentage_like (Cell.text "6%3") = some (PyFloat.val 63) ∧
      pyFloatParse (specStripTrailingPercent "6%3") = Option.none := by
  constructor
  · decide
  · decide

-- Witness for C3's amended theorem at concrete inputs.
unseal Rat.add Rat.mul Rat.inv in
theorem clean_percentage_like_spec_witness :
    clean_percentage_like (Cell.text "1,234.5") = some (PyFloat.val (2469 / 2 : ℚ)) ∧
      clean_percentage_like (Cell.text "63.6%") = some (PyFloat.val (318 / 5 : ℚ)) ∧
      clean_percentage_like (Cell.text " NaN ") = Option.none ∧
      clean_percentage_like (Cell.text "abc") = Option.none := by
  refine ⟨?_, ?_, ?_, ?_⟩
  · have h := clean_percentage_like_spec.2.2.2.2.2.2.2 [] []
      ['1', ',', '2', '3', '4'] ['.', '5'] []
      (by decide) (by decide) (by decide) ⟨'1', by decide, by decide⟩
      (Or.inr ⟨['5'], rfl, by decide, by decide⟩) (Or.inl rfl)
    refine Eq.trans (by exact h) ?_
    decide
  · have h := clean_percentage_like_spec.2.2.2.2.2.2.2 [] []
      ['6', '3'] ['.', '6'] ['%']
      (by decide) (by decide) (by decide) ⟨'6', by decide, by decide⟩
      (Or.inr ⟨['6'], rfl, by decide, by decide⟩) (Or.inr rfl)
    refine Eq.trans (by exact h) ?_
    decide
  · exact clean_percentage_like_spec.2.2.2.2.2.1 " NaN " (by decide)
  · exact clean_percentage_like_spec.2.2.2.2.2.2.1 "abc" (by decide)

/-! ### Claim C4: the period token recognizer -/

/-- `is_year_str` accepts exactly trimmed 4-character decimal-digit strings
whose value lies in `[1900, 2100]`. -/
theorem is_year_str_iff (s : String) (y : Nat) :
    is_year_str s = some y ↔
      ((pyStripL s.toList).length = 4 ∧
       (∀ c ∈ pyStripL s.toList, (pyCharDigitVal c).isSome) ∧
       y = specDecVal (pyStripL s.toList) ∧ 1900 ≤ y ∧ y ≤ 2100) := by
  unfold is_year_str
  constructor
  · intro h
    by_cases hcond : (pyStripL s.toList).length = 4 ∧ pyIsDigitStr (pyStripL s.toList) = true
    · have hall : ∀ c ∈ pyStripL s.toList, (pyCharDigitVal c).isSome := by
        have := hcond.2
        unfold pyIsDigitStr at this
        simp only [Bool.and_eq_true, List.all_eq_true] at this
        exact fun c hc => this.2 c hc
      rw [if_pos hcond, digitsValAux_eq_of_digits _ 0 hall] at h
      simp only [Nat.zero_mul, Nat.zero_add] at h
      by_cases hb : 1900 ≤ specDecVal (pyStripL s.toList) ∧
          specDecVal (pyStripL s.toList) ≤ 2100
      · rw [if_pos hb] at h
        obtain rfl := (Option.some_inj.mp h).symm
        exact ⟨hcond.1, hall, rfl, hb.1, hb.2⟩
      · rw [if_neg hb] at h; cases h
    · rw [if_neg hcond] at h; cases h
  · rintro ⟨hlen, hall, rfl, hlo, hhi⟩
    have hdig : pyIsDigitStr (pyStripL s.toList) = true := by
      unfold pyIsDigitStr
      simp only [Bool.and_eq_true, List.all_eq_true]
      refine ⟨?_, fun c hc => hall c hc⟩
      cases hmt : pyStripL s.toList with
      | nil => rw [hmt] at hlen; simp at hlen
      | cons c cs => simp
    rw [if_pos ⟨hlen, hdig⟩, digitsValAux_eq_of_digits _ 0 hall]
    simp only [Nat.zero_mul, Nat.zero_add]
    rw [if_pos ⟨hlo, hhi⟩]

/-- Claim C4 (amended): the Period Token Recognizer returns a period `y`
exactly when the trimmed string form consists of exactly 4 decimal-digit
characters in Python's sense — which includes non-ASCII decimal digits such
as fullwidth digits — whose value `y` lies in `[1900, 2100]`. -/
theorem is_year_str_spec (s : String) (y : Nat) :
    is_year_str s = some y ↔
      ((pyStripL s.toList).length = 4 ∧
       (∀ c ∈ pyStripL s.toList, (pyCharDigitVal c).isSome) ∧
       y = specDecVal (pyStripL s.toList) ∧ 1900 ≤ y ∧ y ≤ 2100) :=
  is_year_str_iff s y

/-- Counterexample to claim C4 as stated: the fullwidth digit string
`"２０２０"` is not made of ASCII digits, yet the recognizer accepts it and
returns 2020 rather than "not a period". -/
theorem is_year_str_ascii_cex :
    is_year_str "２０２０" = some 2020 ∧
      ("２０２０".toList.all asciiDigit) = false := by
  constructor
  · decide
  · decide

/-- Witness for C4's amended theorem at a concrete accepted input. -/
theorem is_year_str_spec_witness : is_year_str " 2020 " = some 2020 :=
  (is_year_str_spec " 2020 " 2020).mpr (by decide)

/-! ### Detector structure lemmas, claims C9 and C1 -/

/-- Every block the scanning loop emits from position `i` has an anchor at or
after `i`, leaves room for its sub-header row, passed the three-token test,
and carries the year map built from its own anchor and sub-header rows. -/
theorem findBlocksAux_mem {g : Grid} :
    ∀ (fuel i : Nat) (b : Nat × YearMap), b ∈ findBlocksAux g fuel i →
      i ≤ b.1 ∧ b.1 + 1 < g.nrows ∧ 3 ≤ (yearsInRow g b.1).length ∧
      b.2 = buildYearMap g (b.1 + 1) (yearsInRow g b.1) := by
  intro fuel
  induction fuel with
  | zero => intro i b hb; cases hb
  | succ fuel ih =>
    intro i b hb
    unfold findBlocksAux at hb
    by_cases h1 : i < g.nrows - 1
    · rw [if_pos h1] at hb
      by_cases h2 : 3 ≤ (yearsInRow g i).length
      · rw [if_pos h2] at hb
        by_cases h3 : i + 1 < g.nrows
        · rw [if_pos h3] at hb
          by_cases h4 : buildYearMap g (i + 1) (yearsInRow g i) = []
          · rw [if_pos h4] at hb
            have := ih (i + 1) b hb
            exact ⟨by omega, this.2⟩
          · rw [if_neg h4] at hb
            rcases List.mem_cons.mp hb with rfl | hb2
            · exact ⟨le_refl i, h3, h2, rfl⟩
            · have := ih (i + 2) b hb2
              exact ⟨by omega, this.2⟩
        · rw [if_neg h3] at hb
          have := ih (i + 1) b hb
          exact ⟨by omega, this.2⟩
      · rw [if_neg h2] at hb
        have := ih (i + 1) b hb
        exact ⟨by omega, this.2⟩
    · rw [if_neg h1] at hb
      cases hb

/-- The blocks the scanning loop emits have anchors that increase by at
least 2 from one block to the next. -/
theorem findBlocksAux_chain {g : Grid} :
    ∀ (fuel i : Nat), List.Chain' (fun a b : Nat × YearMap => a.1 + 2 ≤ b.1)
      (findBlocksAux g fuel i) := by
  intro fuel
  induction fuel with
  | zero => intro i; exact List.chain'_nil
  | succ fuel ih =>
    intro i
    unfold findBlocksAux
    by_cases h1 : i < g.nrows - 1
    · rw [if_pos h1]
      by_cases h2 : 3 ≤ (yearsInRow g i).length
      · rw [if_pos h2]
        by_cases h3 : i + 1 < g.nrows
        · rw [if_pos h3]
          by_cases h4 : buildYearMap g (i + 1) (yearsInRow g i) = []
          · rw [if_pos h4]; exact ih (i + 1)
          · rw [if_neg h4]
            refine List.chain'_cons'.mpr ⟨?_, ih (i + 2)⟩
            intro y hy
            have hym : y ∈ findBlocksAux g fuel (i + 2) := by
              cases hh : (findBlocksAux g fuel (i + 2)).head? with
              | none => rw [hh] at hy; cases hy
              | some z =>
                rw [hh] at hy
                simp only [Option.mem_def, Option.some_inj] at hy
                subst hy
                exact List.mem_of_mem_head? hh
            have := (findBlocksAux_mem fuel (i + 2) y hym).1
            omega
        · rw [if_neg h3]; exact ih (i + 1)
      · rw [if_neg h2]; exact ih (i + 1)
    · rw [if_neg h1]; exact List.chain'_nil

/-- Claim C9: the Header Block Detector never anchors a block at the last
row of the grid: for every detected block the sub-header row
`anchor_row + 1` exists, so a ≥3-token row that is the final grid row
produces no block and no out-of-bounds sub-header read can occur. -/
theorem anchor_row_not_last (g : Grid) :
    ∀ b ∈ find_header_blocks g, b.1 + 1 < g.nrows :=
  fun b hb => (findBlocksAux_mem g.nrows 0 b hb).2.1

theorem anchor_row_not_last_witness :
    (0, sampleYearMap3).1 + 1 < sampleGrid3.nrows :=
  anchor_row_not_last sampleGrid3 (0, sampleYearMap3) (by decide)

theorem anchors_chain (g : Grid) :
    List.Chain' (fun a b : Nat => a + 2 ≤ b) (anchors g) := by
  unfold anchors
  rw [List.chain'_map]
  exact findBlocksAux_chain g.nrows 0

theorem anchors_pairwise (g : Grid) :
    List.Pairwise (fun a b : Nat => a + 2 ≤ b) (anchors g) := by
  haveI : IsTrans Nat fun a b : Nat => a + 2 ≤ b := ⟨fun a b c h1 h2 => by omega⟩
  exact List.chain'_iff_pairwise.mp (anchors_chain g)

/-- Claim C1: detected blocks are well-structured: anchors strictly
increase with gaps of at least 2, every anchor row has at least 3 period
tokens among the cells in columns 1 and beyond, and no two blocks' data
regions (`anchor_row + 2` up to the next anchor, or the end of the grid)
overlap. -/
theorem find_header_blocks_invariants (g : Grid) :
    List.Chain' (fun a b : Nat => a + 2 ≤ b) (anchors g)
    ∧ List.Pairwise (· < ·) (anchors g)
    ∧ (∀ b ∈ find_header_blocks g, 3 ≤ (yearsInRow g b.1).length)
    ∧ (∀ (k l : Nat) (hk : k < (anchors g).length) (hl : l < (anchors g).length),
        k < l → ∀ r : Nat, inRegion g k hk r → ¬ inRegion g l hl r) := by
  refine ⟨anchors_chain g, (anchors_pairwise g).imp (fun h => by omega), ?_, ?_⟩
  · exact fun b hb => (findBlocksAux_mem g.nrows 0 b hb).2.2.1
  · intro k l hk hl hkl r hrk hrl
    have hget : ∀ (i j : Fin (anchors g).length), i < j →
        (anchors g).get i + 2 ≤ (anchors g).get j :=
      List.pairwise_iff_get.mp (anchors_pairwise g)
    obtain ⟨hrk1, hrk2⟩ := hrk
    obtain ⟨hrl1, hrl2⟩ := hrl
    have hk1 : k + 1 < (anchors g).length := by omega
    rw [regionEnd, dif_pos hk1] at hrk2
    have hkl2 : (anchors g).get ⟨k + 1, hk1⟩ ≤ (anchors g).get ⟨l, hl⟩ := by
      rcases Nat.lt_or_ge (k + 1) l with hlt | hge
      · have := hget ⟨k + 1, hk1⟩ ⟨l, hl⟩ hlt
        omega
      · have hkl3 : k + 1 = l := by omega
        subst hkl3
        rfl
    omega

theorem find_header_blocks_invariants_witness :
    anchors sampleGrid3 = [0, 4] ∧
      List.Chain' (fun a b : Nat => a + 2 ≤ b) (anchors sampleGrid3) ∧
      ¬ inRegion sampleGrid3 1 (by decide) 2 := by
  refine ⟨by decide, (find_header_blocks_invariants sampleGrid3).1, ?_⟩
  exact fun hr =>
    (find_header_blocks_invariants sampleGrid3).2.2.2 0 1 (by decide) (by decide)
      (by omega) 2 (by decide) hr

/-! ### Extractor boundary lemmas, claims C2 and C5 -/

theorem stopRowAux_ge (g : Grid) :
    ∀ fuel r, r ≤ stopRowAux g fuel r := by
  intro fuel
  induction fuel with
  | zero => intro r; exact le_refl r
  | succ fuel ih =>
    intro r
    unfold stopRowAux
    by_cases h1 : r < g.nrows
    · rw [if_pos h1]
      by_cases h2 : 3 ≤ yearsHere g r
      · rw [if_pos h2]
      · rw [if_neg h2]
        have := ih (r + 1)
        omega
    · rw [if_neg h1]

/-- The row loop of `parse_block` processes exactly the rows from its start
up to (but excluding) the stopping row. -/
theorem parseBlockAux_eq_flatten (g : Grid) (ym : YearMap) :
    ∀ fuel r, g.nrows ≤ fuel + r →
      parseBlockAux g ym fuel r =
        ((List.range' r (stopRowAux g fuel r - r)).map (rowRecords g ym)).flatten := by
  intro fuel
  induction fuel with
  | zero =>
    intro r h
    unfold parseBlockAux stopRowAux
    simp
  | succ fuel ih =>
    intro r h
    by_cases h1 : r < g.nrows
    · by_cases h2 : 3 ≤ yearsHere g r
      · simp only [parseBlockAux, stopRowAux]
        rw [if_pos h1, if_pos h2, if_pos h1, if_pos h2]
        simp
      · have hstep : stopRowAux g (fuel + 1) r = stopRowAux g fuel (r + 1) := by
          show (if r < g.nrows then
            if 3 ≤ yearsHere g r then r else stopRowAux g fuel (r + 1) else r) = _
          rw [if_pos h1, if_neg h2]
        have hge : r + 1 ≤ stopRowAux g fuel (r + 1) := stopRowAux_ge g fuel (r + 1)
        have hlen : stopRowAux g (fuel + 1) r - r =
            (stopRowAux g fuel (r + 1) - (r + 1)) + 1 := by
          rw [hstep]; omega
        calc parseBlockAux g ym (fuel + 1) r
            = rowRecords g ym r ++ parseBlockAux g ym fuel (r + 1) := by
              simp only [parseBlockAux]
              rw [if_pos h1, if_neg h2]
          _ = rowRecords g ym r ++
              ((List.range' (r + 1) (stopRowAux g fuel (r + 1) - (r + 1))).map
                (rowRecords g ym)).flatten := by
              rw [ih (r + 1) (by omega)]
          _ = ((List.range' r (stopRowAux g (fuel + 1) r - r)).map
                (rowRecords g ym)).flatten := by
              rw [hlen, List.range'_succ, List.map_cons, List.flatten_cons]
    · simp only [parseBlockAux, stopRowAux]
      rw [if_neg h1, if_neg h1]
      simp

/-- Every row strictly before the stopping row fails the boundary test. -/
theorem stopRowAux_min (g : Grid) :
    ∀ fuel r, ∀ x, r ≤ x → x < stopRowAux g fuel r → yearsHere g x < 3 := by
  intro fuel
  induction fuel with
  | zero =>
    intro r x h1 h2
    unfold stopRowAux at h2
    omega
  | succ fuel ih =>
    intro r x h1 h2
    unfold stopRowAux at h2
    by_cases hr : r < g.nrows
    · rw [if_pos hr] at h2
      by_cases hb : 3 ≤ yearsHere g r
      · rw [if_pos hb] at h2; omega
      · rw [if_neg hb] at h2
        rcases Nat.eq_or_lt_of_le h1 with rfl | hlt
        · omega
        · exact ih (r + 1) x hlt h2
    · rw [if_neg hr] at h2; omega

/-- When the stopping row lies inside the grid it passes the boundary
test. -/
theorem stopRowAux_boundary (g : Grid) :
    ∀ fuel r, g.nrows ≤ fuel + r → stopRowAux g fuel r < g.nrows →
      3 ≤ yearsHere g (stopRowAux g fuel r) := by
  intro fuel
  induction fuel with
  | zero =>
    intro r h hlt
    unfold stopRowAux at hlt ⊢
    omega
  | succ fuel ih =>
    intro r h hlt
    unfold stopRowAux at hlt ⊢
    by_cases hr : r < g.nrows
    · rw [if_pos hr] at hlt ⊢
      by_cases hb : 3 ≤ yearsHere g r
      · rw [if_pos hb] at hlt ⊢; exact hb
      · rw [if_neg hb] at hlt ⊢
        exact ih (r + 1) (by omega) hlt
    · rw [if_neg hr] at hlt ⊢; omega

/-- Claim C2: starting at `anchor_row + 2`, the Row Extractor stops exactly
at the first row with at least 3 period tokens in columns 1 and beyond: it
emits records from exactly the rows strictly before that stopping row (or
to the end of the grid when no such row exists), every processed row fails
the boundary test, and the stopping row — when inside the grid — passes
it. -/
theorem parse_block_stops_at_boundary (g : Grid) (ym : YearMap) (header_row : Nat) :
    parse_block g header_row ym =
      ((List.range' (header_row + 2) (stopRow g (header_row + 2) - (header_row + 2))).map
        (rowRecords g ym)).flatten
    ∧ (∀ r, header_row + 2 ≤ r → r < stopRow g (header_row + 2) → yearsHere g r < 3)
    ∧ (stopRow g (header_row + 2) < g.nrows →
        3 ≤ yearsHere g (stopRow g (header_row + 2))) := by
  refine ⟨?_, ?_, ?_⟩
  · exact parseBlockAux_eq_flatten g ym g.nrows (header_row + 2) (by omega)
  · exact fun r h1 h2 => stopRowAux_min g g.nrows (header_row + 2) r h1 h2
  · exact fun h => stopRowAux_boundary g g.nrows (header_row + 2) (by omega) h

theorem parse_block_stops_at_boundary_witness :
    stopRow sampleGrid3 2 = 4 ∧
      yearsHere sampleGrid3 3 < 3 ∧
      parse_block sampleGrid3 0 sampleYearMap3 =
        ((List.range' (0 + 2) (stopRow sampleGrid3 (0 + 2) - (0 + 2))).map
          (rowRecords sampleGrid3 sampleYearMap3)).flatten := by
  refine ⟨by decide, ?_, (parse_block_stops_at_boundary sampleGrid3 sampleYearMap3 0).1⟩
  exact (parse_block_stops_at_boundary sampleGrid3 sampleYearMap3 0).2.1 3 (by omega)
    (by decide)

/-- A lowercase-letter pattern survives `str.lower`: if `s` starts with
`table`, so does its lowering. -/
theorem pyStartsWith_lower_table {s : String} (h : pyStartsWith s "table" = true) :
    pyStartsWith (pyLower s) "table" = true := by
  unfold pyStartsWith at h ⊢
  rw [List.isPrefixOf_iff_prefix] at h ⊢
  obtain ⟨t, ht⟩ := h
  have : (pyLower s).toList = "table".toList ++ pyLowerL t := by
    unfold pyLower
    rw [string_mk_toList, ← ht]
    unfold pyLowerL
    rw [List.map_append]
    rfl
  rw [this]
  exact List.prefix_append _ _

/-- Claim C5: a data row inside a block (one that fails the boundary test)
whose label is blank, the literal `nan`, begins with the caption marker
`table`, or case-insensitively equals the aggregate marker `united states`,
contributes no records, and extraction continues with the next row rather
than terminating. -/
theorem parse_block_skips_marker_rows (g : Grid) (ym : YearMap) (fuel r : Nat)
    (hr : r < g.nrows) (hdata : yearsHere g r < 3)
    (hlab : rowLabel g r = "" ∨ rowLabel g r = "nan" ∨
      pyStartsWith (rowLabel g r) "table" = true ∨
      pyLower (rowLabel g r) = "united states") :
    rowRecords g ym r = [] ∧
      parseBlockAux g ym (fuel + 1) r = parseBlockAux g ym fuel (r + 1) := by
  have hrow : rowRecords g ym r = [] := by
    unfold rowRecords
    rcases hlab with h0 | h0 | h0 | h0
    · rw [if_pos (Or.inl h0)]
    · rw [if_pos (Or.inr (Or.inr (by rw [h0]; decide)))]
    · rw [if_pos (Or.inr (Or.inl (pyStartsWith_lower_table h0)))]
    · by_cases hfirst : rowLabel g r = "" ∨
          pyStartsWith (pyLower (rowLabel g r)) "table" = true ∨
          pyLower (rowLabel g r) = "nan"
      · rw [if_pos hfirst]
      · rw [if_neg hfirst, if_pos h0]
  refine ⟨hrow, ?_⟩
  show (if r < g.nrows then
    if 3 ≤ yearsHere g r then []
    else rowRecords g ym r ++ parseBlockAux g ym fuel (r + 1) else []) = _
  rw [if_pos hr, if_neg (by omega : ¬ 3 ≤ yearsHere g r), hrow, List.nil_append]

theorem parse_block_skips_marker_rows_witness :
    rowRecords sampleGrid2 sampleYearMap3 2 = [] ∧
      parseBlockAux sampleGrid2 sampleYearMap3 1 2 =
        parseBlockAux sampleGrid2 sampleYearMap3 0 3 :=
  parse_block_skips_marker_rows sampleGrid2 sampleYearMap3 0 2 (by decide) (by decide)
    (Or.inr (Or.inr (Or.inr (by decide))))

/-! ### Year-map and resolver lemmas, claim C6 -/

theorem dictInsert_cons_eq {e : Nat × Option Nat × Option Nat}
    {rest : YearMap} {y : Nat} {v : Option Nat × Option Nat} (h : e.1 = y) :
    dictInsert (e :: rest) y v = (y, v) :: rest := by
  show (if e.1 = y then (y, v) :: rest else e :: dictInsert rest y v) = _
  rw [if_pos h]

theorem dictInsert_cons_ne {e : Nat × Option Nat × Option Nat}
    {rest : YearMap} {y : Nat} {v : Option Nat × Option Nat} (h : ¬ e.1 = y) :
    dictInsert (e :: rest) y v = e :: dictInsert rest y v := by
  show (if e.1 = y then (y, v) :: rest else e :: dictInsert rest y v) = _
  rw [if_neg h]

theorem dictInsert_mem_keys {m : YearMap} {y x : Nat} {v : Option Nat × Option Nat} :
    x ∈ (dictInsert m y v).map Prod.fst ↔ x ∈ m.map Prod.fst ∨ x = y := by
  induction m with
  | nil => simp [dictInsert]
  | cons e rest ih =>
    by_cases he : e.1 = y
    · rw [dictInsert_cons_eq he]
      simp only [List.map_cons, List.mem_cons]
      rw [← he]
      tauto
    · rw [dictInsert_cons_ne he]
      simp only [List.map_cons, List.mem_cons, ih]
      tauto

theorem dictInsert_nodup {m : YearMap} {y : Nat} {v : Option Nat × Option Nat}
    (h : (m.map Prod.fst).Nodup) : ((dictInsert m y v).map Prod.fst).Nodup := by
  induction m with
  | nil => simp [dictInsert]
  | cons e rest ih =>
    rw [List.map_cons, List.nodup_cons] at h
    by_cases he : e.1 = y
    · rw [dictInsert_cons_eq he, List.map_cons, List.nodup_cons]
      exact ⟨he ▸ h.1, h.2⟩
    · rw [dictInsert_cons_ne he, List.map_cons, List.nodup_cons]
      refine ⟨fun hm => ?_, ih h.2⟩
      rcases dictInsert_mem_keys.mp hm with h2 | h2
      · exact h.1 h2
      · exact he h2


theorem buildYearMap_nodup (g : Grid) (subR : Nat) (yrow : List (Nat × Nat)) :
    ((buildYearMap g subR yrow).map Prod.fst).Nodup := by
  unfold buildYearMap
  suffices h : ∀ (acc : YearMap), (acc.map Prod.fst).Nodup →
      ((yrow.foldl (fun ym jy => dictInsert ym jy.2 (subheaderCols g subR jy.1))
        acc).map Prod.fst).Nodup by
    exact h [] (by simp)
  induction yrow with
  | nil => intro acc hacc; exact hacc
  | cons jy rest ih =>
    intro acc hacc
    exact ih (dictInsert acc jy.2 (subheaderCols g subR jy.1)) (dictInsert_nodup hacc)

theorem periodRecords_year (g : Grid) (r : Nat) (state : String)
    (e : Nat × Option Nat × Option Nat) :
    ∀ rec ∈ periodRecords g r state e, rec.year = e.1 := by
  intro rec hrec
  unfold periodRecords at hrec
  rcases e with ⟨y, t, c⟩
  rcases c with _ | j
  · rcases t with _ | j
    · cases hrec
    · simp only at hrec
      by_cases hj : j < g.ncols
      · rw [if_pos hj] at hrec
        rcases hcl : clean_percentage_like (g.cell r j) with _ | v <;> rw [hcl] at hrec
        · cases hrec
        · rcases List.mem_singleton.mp hrec with rfl
          rfl
      · rw [if_neg hj] at hrec; cases hrec
  · simp only at hrec
    by_cases hj : j < g.ncols
    · rw [if_pos hj] at hrec
      rcases hcl : clean_percentage_like (g.cell r j) with _ | v <;> rw [hcl] at hrec
      · cases hrec
      · rcases List.mem_singleton.mp hrec with rfl
        rfl
    · rw [if_neg hj] at hrec; cases hrec

/-- With duplicate-free keys, filtering the row's records down to one period
recovers exactly that period's contribution. -/
theorem flatMap_filter_period (g : Grid) (r : Nat) (state : String) :
    ∀ (ym : YearMap), (ym.map Prod.fst).Nodup →
      ∀ e ∈ ym,
        (ym.flatMap (periodRecords g r state)).filter (fun rec => rec.year = e.1) =
          periodRecords g r state e := by
  intro ym
  induction ym with
  | nil => intro _ e he; cases he
  | cons e2 rest ih =>
    intro hnd e he
    rw [List.map_cons, List.nodup_cons] at hnd
    rw [List.flatMap_cons, List.filter_append]
    rcases List.mem_cons.mp he with rfl | he2
    · have h1 : (periodRecords g r state e).filter (fun rec => rec.year = e.1) =
          periodRecords g r state e := by
        rw [List.filter_eq_self]
        intro rec hrec
        simp only [decide_eq_true_eq]
        exact periodRecords_year g r state e rec hrec
      have h2 : (rest.flatMap (periodRecords g r state)).filter
          (fun rec => rec.year = e.1) = [] := by
        rw [List.filter_eq_nil_iff]
        intro rec hrec
        obtain ⟨e3, he3, hrec3⟩ := List.mem_flatMap.mp hrec
        simp only [decide_eq_true_eq]
        rw [periodRecords_year g r state e3 rec hrec3]
        intro heq
        exact hnd.1 (heq ▸ List.mem_map_of_mem Prod.fst he3)
      rw [h1, h2, List.append_nil]
    · have h1 : (periodRecords g r state e2).filter (fun rec => rec.year = e.1) = [] := by
        rw [List.filter_eq_nil_iff]
        intro rec hrec
        simp only [decide_eq_true_eq]
        rw [periodRecords_year g r state e2 rec hrec]
        intro heq
        exact hnd.1 (heq.symm ▸ List.mem_map_of_mem Prod.fst he2)
      rw [h1, List.nil_append]
      exact ih hnd.2 e he2

theorem rowRecords_of_not_skipped (g : Grid) (ym : YearMap) (r : Nat)
    (h : ¬ rowSkipped g r) :
    rowRecords g ym r = ym.flatMap (periodRecords g r (rowLabel g r)) := by
  unfold rowSkipped at h
  push_neg at h
  unfold rowRecords
  rw [if_neg, if_neg]
  · exact h.2.2.2
  · rintro (h1 | h1 | h1)
    · exact h.1 h1
    · exact h.2.1 h1
    · exact h.2.2.1 h1

/-- Claim C6: with the preference order `[citizen, total]` bound in, the
detector maps the citizen variant from a sub-header cell whose lowered text
starts with `citizen` (the cell at the year's own column taking priority
over the one at the next column), the year map never registers a period
twice, and for each registered period the extractor reads the
citizen-variant column whenever one is mapped (even when a total column is
also present), otherwise the total-variant column, and emits no record for
a period with neither variant mapped. -/
theorem citizen_preference_resolution :
    (∀ (g : Grid) (subR j : Nat),
      (subheaderCols g subR j).2 =
        (if pyStartsWith (subCellLower g subR j) "citizen" = true then some j
         else if pyStartsWith (subCellLower g subR (j + 1)) "citizen" = true then
           some (j + 1)
         else Option.none))
    ∧ (∀ (g : Grid) (subR : Nat) (yrow : List (Nat × Nat)),
        ((buildYearMap g subR yrow).map Prod.fst).Nodup)
    ∧ (∀ (g : Grid) (ym : YearMap) (r : Nat) (e : Nat × Option Nat × Option Nat),
        (ym.map Prod.fst).Nodup → e ∈ ym → ¬ rowSkipped g r →
        (rowRecords g ym r).filter (fun rec => rec.year = e.1) =
          periodRecords g r (rowLabel g r) e)
    ∧ (∀ (g : Grid) (r : Nat) (state : String) (y : Nat) (t : Option Nat) (j : Nat),
        periodRecords g r state (y, t, some j) =
          if j < g.ncols then
            (match clean_percentage_like (g.cell r j) with
             | some v => [⟨y, state, v⟩]
             | Option.none => [])
          else [])
    ∧ (∀ (g : Grid) (r : Nat) (state : String) (y : Nat) (j : Nat),
        periodRecords g r state (y, some j, Option.none) =
          if j < g.ncols then
            (match clean_percentage_like (g.cell r j) with
             | some v => [⟨y, state, v⟩]
             | Option.none => [])
          else [])
    ∧ (∀ (g : Grid) (r : Nat) (state : String) (y : Nat),
        periodRecords g r state (y, Option.none, Option.none) = []) := by
  refine ⟨?_, buildYearMap_nodup, ?_, fun g r state y t j => rfl,
    fun g r state y j => rfl, fun g r state y => rfl⟩
  · intro g subR j
    unfold subheaderCols
    by_cases h1 : pyStartsWith (subCellLower g subR j) "citizen" = true
    · simp [h1]
    · by_cases h2 : pyStartsWith (subCellLower g subR (j + 1)) "citizen" = true
      · simp [h1, h2]
      · simp [h1, h2]
  · intro g ym r e hnd he hskip
    rw [rowRecords_of_not_skipped g ym r hskip]
    exact flatMap_filter_period g r (rowLabel g r) ym hnd e he

-- Witness for C6 on spec scenario D: the sub-header text `Citizen, VEP`
-- resolves the citizen column even though a total column is present, and the
-- extractor reads the 2020 value from the citizen column.
unseal Rat.add Rat.mul Rat.inv in
theorem citizen_preference_resolution_witness :
    (subheaderCols sampleGrid4 1 1).2 = some 2 ∧
      (subheaderCols sampleGrid4 1 1).1 = some 1 ∧
      (rowRecords sampleGrid4 sampleYearMap4 2).filter
        (fun rec => rec.year = (2020, some 1, some 2).1) =
        periodRecords sampleGrid4 2 (rowLabel sampleGrid4 2) (2020, some 1, some 2) ∧
      periodRecords sampleGrid4 2 "Alabama" (2020, some 1, some 2) =
        [⟨2020, "Alabama", PyFloat.val (318 / 5 : ℚ)⟩] := by
  refine ⟨?_, by decide, ?_, by decide⟩
  · exact (citizen_preference_resolution.1 sampleGrid4 1 1).trans (by decide)
  · exact citizen_preference_resolution.2.2.1 sampleGrid4 sampleYearMap4 2
      (2020, some 1, some 2) (by decide) (by decide) (by decide)

/-! ### Sorting lemmas, claim C7 -/

theorem pyStrLeb_refl : ∀ l : List Char, pyStrLeb l l = true := by
  intro l
  induction l with
  | nil => rfl
  | cons a as ih =>
    unfold pyStrLeb
    rw [if_neg (lt_irrefl a.toNat), if_pos rfl]
    exact ih

theorem pyStrLeb_total : ∀ a b : List Char, pyStrLeb a b = true ∨ pyStrLeb b a = true := by
  intro a
  induction a with
  | nil => intro b; exact Or.inl rfl
  | cons x as ih =>
    intro b
    cases b with
    | nil => exact Or.inr rfl
    | cons y bs =>
      unfold pyStrLeb
      rcases Nat.lt_trichotomy x.toNat y.toNat with h | h | h
      · rw [if_pos h]; exact Or.inl rfl
      · rw [if_neg (by omega), if_pos h, if_neg (by omega), if_pos h.symm]
        exact ih bs
      · rw [if_neg (by omega), if_neg (by omega)]
        refine Or.inr ?_
        rw [if_pos h]

theorem pyStrLeb_trans : ∀ a b c : List Char,
    pyStrLeb a b = true → pyStrLeb b c = true → pyStrLeb a c = true := by
  intro a
  induction a with
  | nil => intro b c _ _; rfl
  | cons x as ih =>
    intro b c hab hbc
    cases b with
    | nil => cases hab
    | cons y bs =>
      cases c with
      | nil => cases hbc
      | cons z cs =>
        unfold pyStrLeb at hab hbc ⊢
        rcases Nat.lt_trichotomy x.toNat y.toNat with h1 | h1 | h1 <;>
          rcases Nat.lt_trichotomy y.toNat z.toNat with h2 | h2 | h2
        · rw [if_pos (by omega)]
        · rw [if_pos (by omega)]
        · rw [if_neg (by omega), if_neg (by omega)] at hbc
          cases hbc
        · rw [if_pos (by omega)]
        · rw [if_neg (by omega), if_pos (by omega)]
          rw [if_neg (by omega), if_pos h1] at hab
          rw [if_neg (by omega), if_pos h2] at hbc
          exact ih bs cs hab hbc
        · rw [if_neg (by omega), if_neg (by omega)] at hbc
          cases hbc
        · rw [if_neg (by omega), if_neg (by omega)] at hab
          cases hab
        · rw [if_neg (by omega), if_neg (by omega)] at hab
          cases hab
        · rw [if_neg (by omega), if_neg (by omega)] at hab
          cases hab

instance : IsTrans Record keyLE := by
  refine ⟨fun a b c hab hbc => ?_⟩
  unfold keyLE at *
  rcases hab with h1 | ⟨h1, h2⟩ <;> rcases hbc with h3 | ⟨h3, h4⟩
  · exact Or.inl (h1.trans h3)
  · exact Or.inl (h3 ▸ h1)
  · exact Or.inl (h1 ▸ h3)
  · exact Or.inr ⟨h1.trans h3, pyStrLeb_trans _ _ _ h2 h4⟩

instance : IsTotal Record keyLE := by
  refine ⟨fun a b => ?_⟩
  unfold keyLE
  rcases Nat.lt_trichotomy a.year b.year with h | h | h
  · exact Or.inl (Or.inl h)
  · rcases pyStrLeb_total a.state.toList b.state.toList with h2 | h2
    · exact Or.inl (Or.inr ⟨h, h2⟩)
    · exact Or.inr (Or.inr ⟨h.symm, h2⟩)
  · exact Or.inr (Or.inl h)

/-- Records with equal (year, state) keys are related by `keyLE`. -/
theorem keyLE_of_keyEq {x z : Record} (hy : x.year = z.year) (hs : x.state = z.state) :
    keyLE x z :=
  Or.inr ⟨hy, hs ▸ pyStrLeb_refl x.state.toList⟩

/-- Inserting an element that is `keyLE`-below every `p`-element prepends it
to the `p`-filtered list. -/
theorem filter_orderedInsert_pos (p : Record → Bool) (x : Record) (hx : p x = true)
    (hall : ∀ z, p z = true → keyLE x z) :
    ∀ l : List Record, (l.orderedInsert keyLE x).filter p = x :: l.filter p := by
  intro l
  induction l with
  | nil => simp [List.orderedInsert, hx]
  | cons b l ih =>
    rw [List.orderedInsert]
    by_cases hle : keyLE x b
    · rw [if_pos hle, List.filter_cons, if_pos hx]
    · rw [if_neg hle]
      have hpb : p b = false := by
        cases hpb : p b with
        | true => exact absurd (hall b hpb) hle
        | false => rfl
      rw [List.filter_cons, List.filter_cons, hpb]
      simp only [Bool.false_eq_true, if_false]
      exact ih

/-- Inserting an element that fails `p` leaves the `p`-filtered list
unchanged. -/
theorem filter_orderedInsert_neg (p : Record → Bool) (x : Record) (hx : p x = false) :
    ∀ l : List Record, (l.orderedInsert keyLE x).filter p = l.filter p := by
  intro l
  induction l with
  | nil => simp [List.orderedInsert, hx]
  | cons b l ih =>
    rw [List.orderedInsert]
    by_cases hle : keyLE x b
    · rw [if_pos hle, List.filter_cons, if_neg (by rw [hx]; exact fun h => nomatch h)]
    · rw [if_neg hle, List.filter_cons, List.filter_cons]
      cases hpb : p b
      · simp only [Bool.false_eq_true, if_false]
        exact ih
      · simp only [if_true]
        rw [ih]

/-- Stability of insertion sort: filtering down to one key preserves the
original order of the records with that key. -/
theorem filter_insertionSort (p : Record → Bool)
    (hkey : ∀ x z, p x = true → p z = true → keyLE x z) :
    ∀ l : List Record, (List.insertionSort keyLE l).filter p = l.filter p := by
  intro l
  induction l with
  | nil => rfl
  | cons x l ih =>
    rw [List.insertionSort]
    cases hx : p x with
    | true =>
      rw [filter_orderedInsert_pos p x hx (fun z hz => hkey x z hx hz), ih,
        List.filter_cons, if_pos hx]
    | false =>
      rw [filter_orderedInsert_neg p x hx, ih, List.filter_cons, if_neg (by
        rw [hx]; exact fun h => nomatch h)]

/-- `normalize_a5a` succeeds exactly by sorting the concatenated block
records. -/
theorem normalize_a5a_ok {g : Grid} {recs : List Record}
    (h : normalize_a5a g = Except.ok recs) :
    recs = sortRecords (allRecords g) := by
  unfold normalize_a5a at h
  by_cases hb : find_header_blocks (preprocess g) = []
  · rw [if_pos hb] at h; cases h
  · rw [if_neg hb] at h
    exact (Except.ok.injEq _ _ ▸ h).symm

/-- Claim C7: the final record sequence is the concatenation of every
block's records (and, for the multi-file merger, of every file's records)
sorted totally and stably by (period ascending, subject ascending): the
output is a permutation of the concatenation, is sorted by the key, agrees
with the concatenation on every key's subsequence (stability), and keeps
every duplicate (counts are preserved; no deduplication). -/
theorem records_merged_sorted :
    (∀ (g : Grid) (recs : List Record), normalize_a5a g = Except.ok recs →
      recs.Perm (allRecords g)
      ∧ List.Pairwise keyLE recs
      ∧ (∀ (y : Nat) (s : String),
          recs.filter (fun rec => rec.year = y ∧ rec.state = s) =
            (allRecords g).filter (fun rec => rec.year = y ∧ rec.state = s))
      ∧ (∀ rec : Record, recs.count rec = (allRecords g).count rec))
    ∧ (∀ parts : List (List Record),
        (mergeFiles parts).Perm parts.flatten
        ∧ List.Pairwise keyLE (mergeFiles parts)
        ∧ (∀ (y : Nat) (s : String),
            (mergeFiles parts).filter (fun rec => rec.year = y ∧ rec.state = s) =
              parts.flatten.filter (fun rec => rec.year = y ∧ rec.state = s))
        ∧ (∀ rec : Record, (mergeFiles parts).count rec = parts.flatten.count rec)) := by
  have hsort : ∀ l : List Record,
      (sortRecords l).Perm l
      ∧ List.Pairwise keyLE (sortRecords l)
      ∧ (∀ (y : Nat) (s : String),
          (sortRecords l).filter (fun rec => rec.year = y ∧ rec.state = s) =
            l.filter (fun rec => rec.year = y ∧ rec.state = s))
      ∧ (∀ rec : Record, (sortRecords l).count rec = l.count rec) := by
    intro l
    have hperm : (sortRecords l).Perm l := List.perm_insertionSort keyLE l
    refine ⟨hperm, List.sorted_insertionSort keyLE l, ?_, fun rec => hperm.count_eq rec⟩
    intro y s
    refine filter_insertionSort _ ?_ l
    intro x z hx hz
    simp only [decide_eq_true_eq] at hx hz
    exact keyLE_of_keyEq (hx.1.trans hz.1.symm) (hx.2.trans hz.2.symm)
  constructor
  · intro g recs h
    rw [normalize_a5a_ok h]
    exact hsort (allRecords g)
  · intro parts
    exact hsort parts.flatten

-- Witness for C7 on a one-block grid.
unseal Rat.add Rat.mul Rat.inv in
theorem records_merged_sorted_witness :
    normalize_a5a sampleGrid1 = Except.ok sampleRecords1 ∧
      sampleRecords1.Perm (allRecords sampleGrid1) ∧
      List.Pairwise keyLE sampleRecords1 ∧
      (mergeFiles [sampleRecords1, sampleRecords1]).count
        ⟨2012, "Alabama", .val 55⟩ = 2 := by
  have h : normalize_a5a sampleGrid1 = Except.ok sampleRecords1 := by rfl
  have h2 := records_merged_sorted.1 sampleGrid1 sampleRecords1 h
  exact ⟨h, h2.1, h2.2.1, by decide⟩

/-! ### Claim C8: hard failure without blocks -/

/-- Claim C8: the engine signals a structural hard failure (a `ValueError`
naming the missing header blocks) exactly when the detector finds no blocks
in the pre-filtered grid, and returns a record list only when at least one
block was detected — the Row Extractor is reached only past that check. -/
theorem normalize_a5a_no_blocks_error (g : Grid) :
    (find_header_blocks (preprocess g) = [] →
      normalize_a5a g = Except.error "Could not detect any header blocks in a5a.xlsx")
    ∧ (∀ recs : List Record, normalize_a5a g = Except.ok recs →
        find_header_blocks (preprocess g) ≠ []) := by
  constructor
  · intro hb
    unfold normalize_a5a
    rw [if_pos hb]
  · intro recs h hb
    unfold normalize_a5a at h
    rw [if_pos hb] at h
    cases h

theorem normalize_a5a_no_blocks_error_witness :
    normalize_a5a (Grid.mk [] 0) =
      Except.error "Could not detect any header blocks in a5a.xlsx" :=
  (normalize_a5a_no_blocks_error (Grid.mk [] 0)).1 (by decide)

/-! ### Claim C10: all emitted periods stay in the recognizer's bounds -/

theorem is_year_str_bounds {s : String} {y : Nat} (h : is_year_str s = some y) :
    1900 ≤ y ∧ y ≤ 2100 := by
  have := (is_year_str_iff s y).mp h
  exact ⟨this.2.2.2.1, this.2.2.2.2⟩

theorem yearsInRow_bounds (g : Grid) (i : Nat) :
    ∀ jy ∈ yearsInRow g i, 1900 ≤ jy.2 ∧ jy.2 ≤ 2100 := by
  intro jy hjy
  unfold yearsInRow at hjy
  obtain ⟨j, _, hj⟩ := List.mem_filterMap.mp hjy
  rcases hys : is_year_str (pyStrip (cellStr (g.cell i j))) with _ | y <;>
    rw [hys] at hj
  · cases hj
  · obtain rfl := (Option.some_inj.mp hj).symm
    exact is_year_str_bounds hys

/-- A dict insert only adds the new key to the key set. -/
theorem dictInsert_keys_prop (P : Nat → Prop) :
    ∀ (m : YearMap), (∀ e ∈ m, P e.1) → ∀ (y : Nat) (v : Option Nat × Option Nat),
      P y → ∀ e ∈ dictInsert m y v, P e.1 := by
  intro m
  induction m with
  | nil =>
    intro _ y v hy e he
    rcases List.mem_singleton.mp he with rfl
    exact hy
  | cons a rest ih =>
    intro hm y v hy e he
    by_cases ha : a.1 = y
    · rw [dictInsert_cons_eq ha] at he
      rcases List.mem_cons.mp he with rfl | he2
      · exact hy
      · exact hm e (List.mem_cons_of_mem a he2)
    · rw [dictInsert_cons_ne ha] at he
      rcases List.mem_cons.mp he with he2 | he2
      · rw [he2]; exact hm a (List.mem_cons_self a rest)
      · exact ih (fun z hz => hm z (List.mem_cons_of_mem a hz)) y v hy e he2

theorem buildYearMap_bounds (g : Grid) (subR i : Nat) :
    ∀ e ∈ buildYearMap g subR (yearsInRow g i), 1900 ≤ e.1 ∧ e.1 ≤ 2100 := by
  unfold buildYearMap
  suffices h : ∀ (yrow : List (Nat × Nat)), (∀ jy ∈ yrow, 1900 ≤ jy.2 ∧ jy.2 ≤ 2100) →
      ∀ (acc : YearMap), (∀ e ∈ acc, 1900 ≤ e.1 ∧ e.1 ≤ 2100) →
      ∀ e ∈ yrow.foldl (fun ym jy => dictInsert ym jy.2 (subheaderCols g subR jy.1)) acc,
        1900 ≤ e.1 ∧ e.1 ≤ 2100 by
    exact fun e he => h (yearsInRow g i) (yearsInRow_bounds g i) [] (by simp) e he
  intro yrow
  induction yrow with
  | nil => intro _ acc hacc e he; exact hacc e he
  | cons jy rest ih =>
    intro hyrow acc hacc e he
    refine ih (fun z hz => hyrow z (List.mem_cons_of_mem jy hz))
      (dictInsert acc jy.2 (subheaderCols g subR jy.1)) ?_ e he
    exact dictInsert_keys_prop (fun y => 1900 ≤ y ∧ y ≤ 2100) acc hacc jy.2
      (subheaderCols g subR jy.1) (hyrow jy (List.mem_cons_self jy rest))

theorem rowRecords_mem_year (g : Grid) (ym : YearMap) (r : Nat) :
    ∀ rec ∈ rowRecords g ym r, ∃ e ∈ ym, rec.year = e.1 := by
  intro rec hrec
  unfold rowRecords at hrec
  by_cases h1 : rowLabel g r = "" ∨ pyStartsWith (pyLower (rowLabel g r)) "table" = true ∨
      pyLower (rowLabel g r) = "nan"
  · rw [if_pos h1] at hrec; cases hrec
  · rw [if_neg h1] at hrec
    by_cases h2 : pyLower (rowLabel g r) = "united states"
    · rw [if_pos h2] at hrec; cases hrec
    · rw [if_neg h2] at hrec
      obtain ⟨e, he, hrec2⟩ := List.mem_flatMap.mp hrec
      exact ⟨e, he, periodRecords_year g r (rowLabel g r) e rec hrec2⟩

theorem parseBlockAux_mem (g : Grid) (ym : YearMap) :
    ∀ (fuel r : Nat) (rec : Record), rec ∈ parseBlockAux g ym fuel r →
      ∃ r2, rec ∈ rowRecords g ym r2 := by
  intro fuel
  induction fuel with
  | zero => intro r rec hrec; cases hrec
  | succ fuel ih =>
    intro r rec hrec
    by_cases h1 : r < g.nrows
    · by_cases h2 : 3 ≤ yearsHere g r
      · have : parseBlockAux g ym (fuel + 1) r = [] := by
          show (if r < g.nrows then
            if 3 ≤ yearsHere g r then []
            else rowRecords g ym r ++ parseBlockAux g ym fuel (r + 1) else []) = []
          rw [if_pos h1, if_pos h2]
        rw [this] at hrec; cases hrec
      · have : parseBlockAux g ym (fuel + 1) r =
            rowRecords g ym r ++ parseBlockAux g ym fuel (r + 1) := by
          show (if r < g.nrows then
            if 3 ≤ yearsHere g r then []
            else rowRecords g ym r ++ parseBlockAux g ym fuel (r + 1) else []) = _
          rw [if_pos h1, if_neg h2]
        rw [this] at hrec
        rcases List.mem_append.mp hrec with h3 | h3
        · exact ⟨r, h3⟩
        · exact ih (r + 1) rec h3
    · have : parseBlockAux g ym (fuel + 1) r = [] := by
        show (if r < g.nrows then
          if 3 ≤ yearsHere g r then []
          else rowRecords g ym r ++ parseBlockAux g ym fuel (r + 1) else []) = []
        rw [if_neg h1]
      rw [this] at hrec; cases hrec

/-- Claim C10: every record in the final output has a period within
`[1900, 2100]`: periods enter `period_columns` only through the recognizer
and the extractor only emits periods from `period_columns`. -/
theorem record_years_in_bounds (g : Grid) (recs : List Record)
    (h : normalize_a5a g = Except.ok recs) :
    ∀ rec ∈ recs, 1900 ≤ rec.year ∧ rec.year ≤ 2100 := by
  intro rec hrec
  rw [normalize_a5a_ok h] at hrec
  have hrec2 : rec ∈ allRecords g :=
    ((List.perm_insertionSort keyLE (allRecords g)).mem_iff).mp hrec
  obtain ⟨b, hb, hrec3⟩ := List.mem_flatMap.mp hrec2
  obtain ⟨r2, hrec4⟩ := parseBlockAux_mem (preprocess g) b.2 (preprocess g).nrows
    (b.1 + 2) rec hrec3
  obtain ⟨e, he, hyear⟩ := rowRecords_mem_year (preprocess g) b.2 r2 rec hrec4
  have hym := (findBlocksAux_mem (preprocess g).nrows 0 b hb).2.2.2
  rw [hym] at he
  have := buildYearMap_bounds (preprocess g) (b.1 + 1) b.1 e he
  rw [hyear]
  exact this

-- Witness for C10 on a one-block grid.
unseal Rat.add Rat.mul Rat.inv in
theorem record_years_in_bounds_witness :
    1900 ≤ (Record.mk 2012 "Alabama" (.val 55)).year ∧
      (Record.mk 2012 "Alabama" (.val 55)).year ≤ 2100 :=
  record_years_in_bounds sampleGrid1 sampleRecords1 (by rfl)
    (Record.mk 2012 "Alabama" (.val 55)) (by decide)

end VoterTurnout
